import Mathlib

/-!
Verification of the reconciliation engine and indication-submission subsystem of
`custom_components/mosenergosbyt/sensor.py`.

The Python code is shallowly embedded: Python dicts become association lists
(`PDict`) preserving insertion order, in-place object mutation becomes explicit
state passing, object identity is tracked by an allocation counter (`eid`),
`asyncio` task scheduling and Home Assistant side effects are recorded in a
`CycleLog`, and Python exceptions become `Except` values.  Python `dict`
iteration order is modelled as insertion order; iteration over the set
difference `keys() - keys()` is modelled in registry insertion order (the
properties proved about it are order independent).
-/

/-- Association list keyed by strings, modelling a Python `dict` with
insertion order. -/
abbrev PDict (α : Type) := List (String × α)

/-- First-match lookup, the semantics of `d[k]` / `d.get(k)` on a dict whose
keys are unique. -/
def alookup {α : Type} : PDict α → String → Option α
  | [], _ => none
  | p :: t, k => if p.1 = k then some p.2 else alookup t k

/-- Python dict assignment `d[k] = v`: replace in place if the key exists,
otherwise append at the end (insertion order). -/
def aupsert {α : Type} : PDict α → String → α → PDict α
  | [], k, v => [(k, v)]
  | p :: t, k, v => if p.1 = k then (k, v) :: t else p :: aupsert t k v

/-- Python `dst.update(src)`: upsert every entry of `src` into `dst`. -/
def amerge {α : Type} (dst src : PDict α) : PDict α :=
  src.foldl (fun c q => aupsert c q.1 q.2) dst

theorem alookup_aupsert_self {α : Type} (l : PDict α) (k : String) (v : α) :
    alookup (aupsert l k v) k = some v := by
  induction l with
  | nil => simp [aupsert, alookup]
  | cons p t ih =>
    by_cases h : p.1 = k
    · simp [aupsert, alookup, h]
    · simp [aupsert, alookup, h, ih]

theorem alookup_aupsert_ne {α : Type} (l : PDict α) (k k2 : String) (v : α)
    (h : k2 ≠ k) : alookup (aupsert l k v) k2 = alookup l k2 := by
  induction l with
  | nil =>
    simp only [aupsert, alookup]
    rw [if_neg (Ne.symm h)]
  | cons p t ih =>
    by_cases hp : p.1 = k
    · subst hp
      simp only [aupsert, if_pos rfl, alookup]
      rw [if_neg (Ne.symm h), if_neg (Ne.symm h)]
    · simp only [aupsert, if_neg hp, alookup]
      by_cases hp2 : p.1 = k2
      · rw [if_pos hp2, if_pos hp2]
      · rw [if_neg hp2, if_neg hp2, ih]

theorem aupsert_self {α : Type} (l : PDict α) (k : String) (v : α)
    (h : alookup l k = some v) : aupsert l k v = l := by
  induction l with
  | nil => simp [alookup] at h
  | cons p t ih =>
    by_cases hp : p.1 = k
    · subst hp
      simp [alookup] at h
      simp only [aupsert, if_pos rfl]
      rw [← h, Prod.mk.eta]
      simp
    · simp [alookup, hp] at h
      simp [aupsert, hp, ih h]

theorem alookup_eq_none_iff {α : Type} (l : PDict α) (k : String) :
    alookup l k = none ↔ k ∉ l.map Prod.fst := by
  induction l with
  | nil => simp [alookup]
  | cons p t ih =>
    by_cases hp : p.1 = k
    · simp [alookup, hp]
    · simp only [alookup, if_neg hp, List.map_cons, List.mem_cons, ih]
      constructor
      · intro hk hor
        rcases hor with h1 | h1
        · exact hp h1.symm
        · exact hk h1
      · intro hk h1
        exact hk (Or.inr h1)

theorem mem_of_alookup_eq_some {α : Type} (l : PDict α) (k : String) (v : α)
    (h : alookup l k = some v) : (k, v) ∈ l := by
  induction l with
  | nil => simp [alookup] at h
  | cons p t ih =>
    by_cases hp : p.1 = k
    · subst hp
      simp [alookup] at h
      subst h
      exact List.mem_cons_self _ _
    · simp [alookup, hp] at h
      exact List.mem_cons_of_mem _ (ih h)

theorem alookup_isSome_of_mem {α : Type} (l : PDict α) (k : String) (v : α)
    (h : (k, v) ∈ l) : (alookup l k).isSome = true := by
  induction l with
  | nil => simp at h
  | cons p t ih =>
    rcases List.mem_cons.mp h with h1 | h1
    · simp [alookup, ← h1]
    · by_cases hp : p.1 = k
      · simp [alookup, hp]
      · simp [alookup, hp, ih h1]

theorem alookup_of_mem_nodup {α : Type} (l : PDict α) (k : String) (v : α)
    (hn : (l.map Prod.fst).Nodup) (h : (k, v) ∈ l) : alookup l k = some v := by
  induction l with
  | nil => simp at h
  | cons p t ih =>
    rcases List.mem_cons.mp h with h1 | h1
    · simp [alookup, ← h1]
    · have hnt : (t.map Prod.fst).Nodup := (List.nodup_cons.mp hn).2
      have hp : p.1 ≠ k := by
        intro hpk
        have : k ∈ t.map Prod.fst := List.mem_map.mpr ⟨(k, v), h1, rfl⟩
        exact (List.nodup_cons.mp hn).1 (hpk ▸ this)
      simp [alookup, hp, ih hnt h1]

theorem mem_aupsert {α : Type} (l : PDict α) (k : String) (v : α) (p : String × α)
    (h : p ∈ aupsert l k v) : p = (k, v) ∨ p ∈ l := by
  induction l with
  | nil => simp [aupsert] at h; simp [h]
  | cons q t ih =>
    by_cases hq : q.1 = k
    · simp [aupsert, hq] at h
      rcases h with h | h
      · exact Or.inl h
      · exact Or.inr (List.mem_cons_of_mem _ h)
    · simp [aupsert, hq] at h
      rcases h with h | h
      · exact Or.inr (List.mem_cons.mpr (Or.inl h))
      · rcases ih h with h2 | h2
        · exact Or.inl h2
        · exact Or.inr (List.mem_cons_of_mem _ h2)

theorem nodup_keys_aupsert {α : Type} (l : PDict α) (k : String) (v : α)
    (h : (l.map Prod.fst).Nodup) : ((aupsert l k v).map Prod.fst).Nodup := by
  induction l with
  | nil => simp [aupsert]
  | cons p t ih =>
    by_cases hp : p.1 = k
    · subst hp
      simpa [aupsert] using h
    · rcases List.nodup_cons.mp h with ⟨hp1, ht⟩
      have hmem : p.1 ∉ (aupsert t k v).map Prod.fst := by
        intro hc
        rcases List.mem_map.mp hc with ⟨q, hq, hq1⟩
        rcases mem_aupsert t k v q hq with h2 | h2
        · exact hp (hq1 ▸ congrArg Prod.fst h2)
        · exact hp1 (List.mem_map.mpr ⟨q, h2, hq1⟩)
      simp only [aupsert, hp, if_false, List.map_cons]
      exact List.nodup_cons.mpr ⟨hmem, ih ht⟩

theorem alookup_filter_key {α : Type} (P : String → Bool) (l : PDict α) (k : String) :
    alookup (l.filter (fun p => P p.1)) k = if P k then alookup l k else none := by
  induction l with
  | nil => simp [alookup]
  | cons p t ih =>
    by_cases hP : P p.1
    · rw [List.filter_cons_of_pos (by simpa using hP)]
      by_cases hp : p.1 = k
      · subst hp
        simp [alookup, hP]
      · simp only [alookup, if_neg hp]
        exact ih
    · rw [List.filter_cons_of_neg (by simpa using hP)]
      by_cases hp : p.1 = k
      · subst hp
        rw [ih]
        simp [hP]
      · simp only [alookup, if_neg hp]
        exact ih

theorem alookup_amerge_not_mem {α : Type} (dst src : PDict α) (k : String)
    (h : k ∉ src.map Prod.fst) : alookup (amerge dst src) k = alookup dst k := by
  induction src generalizing dst with
  | nil => simp [amerge]
  | cons q t ih =>
    simp only [List.map_cons, List.mem_cons] at h
    push_neg at h
    have hstep : amerge dst (q :: t) = amerge (aupsert dst q.1 q.2) t := rfl
    rw [hstep, ih _ h.2, alookup_aupsert_ne dst q.1 k q.2 h.1]

theorem alookup_amerge_of_lookup {α : Type} (dst src : PDict α) (k : String) (v : α)
    (hn : (src.map Prod.fst).Nodup) (h : alookup src k = some v) :
    alookup (amerge dst src) k = some v := by
  induction src generalizing dst with
  | nil => simp [alookup] at h
  | cons q t ih =>
    have hstep : amerge dst (q :: t) = amerge (aupsert dst q.1 q.2) t := rfl
    by_cases hq : q.1 = k
    · subst hq
      simp [alookup] at h
      subst h
      rw [hstep, alookup_amerge_not_mem _ _ _ (List.nodup_cons.mp hn).1,
        alookup_aupsert_self]
    · simp [alookup, hq] at h
      rw [hstep, ih _ (List.nodup_cons.mp hn).2 h]

theorem amerge_nil {α : Type} (dst : PDict α) : amerge dst [] = dst := rfl

/-! ## Data model

Mirrors the objects `sensor.py` manipulates.  Provider behaviour (the results
of `await` calls on the API/account/meter objects) is part of the data, as
`Except` values: `.error` is a raised `MosenergosbytException`. -/

/-- A Python exception that is not a `MosenergosbytException` and therefore is
never caught by `_entity_updater` or the service handlers. -/
inductive PyErr
  | keyError
  | valueError
  | attrError
deriving DecidableEq, Repr

/-- Provider-side rejection of a submission/calculation:
`IndicationsCountException` or a generic `MosenergosbytException`. -/
inductive SubmitErr
  | countErr
  | apiErr
deriving DecidableEq, Repr

deriving instance DecidableEq for Except

/-- Result object of `get_charge_indications` (`ChargeCalculation`). -/
structure Calc where
  period : String
  charged : Int
  comment : String
deriving DecidableEq, Repr

/-- A meter object as used by `sensor.py`: identity, the indication sequences
read by `_get_real_indications`, capability flags (`hasattr` checks for
`save_indications` / `get_charge_indications`), and the provider's response to
each capability call. -/
structure Meter where
  meter_code : String
  account_code : String
  last_indications : List (Option Int)
  submitted_indications : List (Option Int)
  supportsSave : Bool
  supportsCalc : Bool
  saveRes : Except SubmitErr String
  calcRes : Except SubmitErr Calc
deriving DecidableEq, Repr

/-- The value stored in the meters mapping.  Normally a `Meter` object; the
broken explicit-list filter (line 146) can put single-character strings there,
so the embedding keeps both possibilities. -/
inductive MeterVal
  | m (meter : Meter)
  | s (str : String)
deriving DecidableEq, Repr

/-- An invoice object; only the id is inspected by the reconciliation logic. -/
structure Invoice where
  invoice_id : String
  data : Nat
deriving DecidableEq, Repr

/-- A remote account as seen in one cycle: the account payload plus the
results the provider returns for `get_meters()` and `get_last_invoice()`. -/
structure RAccount where
  data : Nat
  metersRes : Except Unit (PDict Meter)
  invoiceRes : Except Unit (Option Invoice)
deriving DecidableEq, Repr

/-- `MESMeterSensor`: allocation id (object identity), the host `entity_id`
attribute, and the backing meter value. -/
structure MeterEntity where
  eid : Nat
  entity_id : String
  meter : MeterVal
deriving DecidableEq, Repr

/-- `MESInvoiceSensor`. -/
structure InvoiceEntity where
  eid : Nat
  invoice : Invoice
deriving DecidableEq, Repr

/-- `MESAccountSensor`: backing account, child meter entities
(`meter_entities`, `None` until first successful meter fetch) and the at most
one invoice entity. -/
structure AccountEntity where
  eid : Nat
  account : RAccount
  meter_entities : Option (PDict MeterEntity)
  invoice_entity : Option InvoiceEntity
deriving DecidableEq, Repr

/-- Per-account meter allow-list value in `CONF_ACCOUNTS`: `True` or an
explicit list of meter codes. -/
inductive MFilter
  | tru
  | codes (cs : List String)
deriving DecidableEq, Repr

/-- `CONF_INVOICES` value: `True`, `False`, or an explicit account-code
list. -/
inductive IFilter
  | tru
  | fls
  | codes (cs : List String)
deriving DecidableEq, Repr

/-- The configuration slice `_entity_updater` reads: `CONF_LOGIN_TIMEOUT`,
`CONF_ACCOUNTS` (absent, or a dict of per-account filters) and `CONF_INVOICES`
(absent or a three-state value). -/
structure Config where
  login_timeout : Nat
  accounts_filter : Option (PDict MFilter)
  invoices_filter : Option IFilter
deriving DecidableEq, Repr

/-- Session state of the `API` object. -/
structure ApiState where
  is_logged_in : Bool
  logged_in_at : Nat
deriving DecidableEq, Repr

/-- Provider behaviour for one cycle: whether `login`/`logout` succeed and
what `get_accounts()` returns. -/
structure Behavior where
  login_ok : Bool
  logout_ok : Bool
  accountsRes : Except Unit (PDict RAccount)
deriving DecidableEq, Repr

/-- Persistent state across cycles: `hass.data[DATA_ENTITIES][entry_id]`
(`none` before first initialisation) plus the allocation counter that models
object identity. -/
structure PState where
  created_entities : Option (PDict AccountEntity)
  nextEid : Nat
deriving DecidableEq, Repr

/-- Observable effects of one cycle: scheduled refresh tasks
(`tasks.append(... .async_update())`), removal tasks (`async_remove`), forced
state republishes (`async_schedule_update_ha_state(force_refresh=True)`), and
which provider calls ran or failed. -/
structure CycleLog where
  accountsProcessed : List String
  refreshTasks : List Nat
  removeTasks : List Nat
  republishes : List Nat
  meterFetches : List String
  meterErrors : List String
  invoiceStage : List String
  invoiceFetches : List String
  invoiceErrors : List String
deriving DecidableEq, Repr

/-- The empty log. -/
def emptyLog : CycleLog := ⟨[], [], [], [], [], [], [], [], []⟩

/-- Return value of `_entity_updater`: `False` on auth/listing failure, the
creation-count triple on success, or an uncaught Python exception. -/
inductive CycleResult
  | authFailed
  | listFailed
  | crashed (e : PyErr)
  | done (a m i : Nat)
deriving DecidableEq, Repr

/-- Whether the updater returned `False` (a "failed result"). -/
def CycleResult.isFailed : CycleResult → Bool
  | .authFailed => true
  | .listFailed => true
  | _ => false

/-- Full outcome of one `_entity_updater` run. -/
structure CycleOut where
  result : CycleResult
  state : PState
  log : CycleLog
deriving DecidableEq, Repr

/-! ## Indication resolution (`_get_real_indications`, lines 254-265) -/

/-- `zip` of the three indication sequences, truncating to the shortest. -/
def zip3 : List Int → List (Option Int) → List (Option Int) →
    List (Int × Option Int × Option Int)
  | a :: as2, l :: ls, s :: ss => (a, l, s) :: zip3 as2 ls ss
  | _, _, _ => []

/-- Python `x or y` on an optional number and a number: `None` and `0` are
falsy, everything else truthy. -/
def pyOrN (x : Option Int) (y : Int) : Int :=
  match x with
  | some v => if v = 0 then y else v
  | none => y

/-- `_get_real_indications`: with `incremental` the effective values are
`a + (s or l or 0)` over `zip(raw, last, submitted)`; otherwise the raw
values verbatim. -/
def get_real_indications (incremental : Bool) (raw : List Int)
    (last subm : List (Option Int)) : List Int :=
  if incremental then
    (zip3 raw last subm).map (fun t => t.1 + pyOrN t.2.2 (pyOrN t.2.1 0))
  else raw

/-- Helper for the amended delta: the last indication if present and nonzero,
else 0. -/
def amendedLastPart : Option Int → Int
  | some y => if y ≠ 0 then y else 0
  | none => 0

/-- Modelled from the spec claim, as amended: the per-position delta is the
submitted indication if present and nonzero, else the last indication if
present and nonzero, else 0. -/
def amendedDelta (s l : Option Int) : Int :=
  match s with
  | some x => if x ≠ 0 then x else amendedLastPart l
  | none => amendedLastPart l

/-- Modelled from the spec claim, as stated: the per-position delta is the
submitted indication if present, else the last indication if present,
else 0 — submitted takes precedence whenever it is present. -/
def claimedDelta (s l : Option Int) : Int :=
  match s with
  | some x => x
  | none =>
    match l with
    | some y => y
    | none => 0

/-! ## Meter allow-list filter (lines 142-146)

`meters = {k: v for k, v in meters if k in account_filter}` iterates the dict
itself, i.e. its KEYS: each meter-code string is unpacked into `k, v` — a
`ValueError` unless the code has exactly two characters, in which case `k` and
`v` are its two characters. -/

/-- The dict comprehension of line 146, evaluated left to right over the
fetched meter codes with a result accumulator (exceptions discard the whole
comprehension). -/
def filterBuggyGo (cs : List String) : List String → PDict MeterVal →
    Except PyErr (PDict MeterVal)
  | [], acc => .ok acc
  | k :: rest, acc =>
    match k.toList with
    | [c0, c1] =>
      if String.singleton c0 ∈ cs then
        filterBuggyGo cs rest (aupsert acc (String.singleton c0) (.s (String.singleton c1)))
      else filterBuggyGo cs rest acc
    | _ => .error .valueError

/-- Line 146 as written: the explicit-list meter filter applied to a fetched
meters dict. -/
def filterMetersCode (cs : List String) (meters : PDict Meter) :
    Except PyErr (PDict MeterVal) :=
  filterBuggyGo cs (meters.map Prod.fst) []

/-- Modelled from the spec: the fetched meter mapping restricted to exactly
the codes in the allow-list, each code still mapped to its fetched `Meter`
object. -/
def filterMetersSpec (cs : List String) (meters : PDict Meter) : PDict Meter :=
  meters.filter (fun p => p.1 ∈ cs)

/-- Wrap a fetched meters dict as mapping values (no filtering applied). -/
def metersAsVals (meters : PDict Meter) : PDict MeterVal :=
  meters.map (fun p => (p.1, MeterVal.m p.2))

/-- Outcome of fetching and filtering the meters of one account: an uncaught
Python exception, a caught provider error, or the mapping used for diffing. -/
inductive FFRes
  | crash (e : PyErr)
  | perror
  | ok (fm : PDict MeterVal)
deriving DecidableEq, Repr

/-- Whether the fetch-and-filter step raises an uncaught exception. -/
def FFRes.isCrash : FFRes → Bool
  | .crash _ => true
  | _ => false

/-- Lines 138-146: fetch the meters of one account and apply the optional
allow-list filter.  `use_meter_filter` (line 101) is true when
`CONF_ACCOUNTS` is present and truthy (a non-empty dict); a missing
per-account entry then raises `KeyError` (line 143), and an explicit list
filter runs the broken comprehension of line 146. -/
def fetchAndFilter (cfg : Config) (acode : String)
    (mres : Except Unit (PDict Meter)) : FFRes :=
  match mres with
  | .error _ => .perror
  | .ok meters =>
    match cfg.accounts_filter with
    | none => .ok (metersAsVals meters)
    | some l =>
      if l.isEmpty then .ok (metersAsVals meters)
      else
        match alookup l acode with
        | none => .crash .keyError
        | some .tru => .ok (metersAsVals meters)
        | some (.codes cs) =>
          match filterMetersCode cs meters with
          | .error e => .crash e
          | .ok fm => .ok fm

/-! ## Invoice filter (lines 101-102 and 176-184) -/

/-- Python truthiness of the `CONF_INVOICES` value. -/
def invoiceTruthy : Option IFilter → Bool
  | none => false
  | some .tru => true
  | some .fls => false
  | some (.codes l) => !l.isEmpty

/-- Whether invoice handling is skipped (`continue`) for an account:
`use_invoice_filter` (line 102) guards the whole filter block, so the
`invoice_filter is False` branch of line 180 is reachable only when the
value is truthy. -/
def invoiceSkip (f : Option IFilter) (acode : String) : Bool :=
  if invoiceTruthy f then
    match f with
    | some .fls => true
    | some .tru => false
    | some (.codes l) => !l.contains acode
    | none => false
  else false

/-! ## Meter diff (lines 148-170) -/

/-- Accumulator of the meter creation/update loop of lines 159-170. -/
structure MLoopSt where
  me : PDict MeterEntity
  nm : PDict MeterEntity
  refresh : List Nat
  republish : List Nat
  ctr : Nat
deriving DecidableEq, Repr

/-- The loop of lines 159-170: for each fetched meter, either create a fresh
`MESMeterSensor` (recorded in `new_meters`, refresh task scheduled) or
replace the backing meter of the existing entity in place and schedule a
forced republish. -/
def mLoop : PDict MeterVal → MLoopSt → MLoopSt
  | [], s => s
  | (c, v) :: rest, s =>
    match alookup s.me c with
    | none =>
      mLoop rest ⟨aupsert s.me c ⟨s.ctr, "", v⟩, aupsert s.nm c ⟨s.ctr, "", v⟩,
        s.refresh ++ [s.ctr], s.republish, s.ctr + 1⟩
    | some ent =>
      mLoop rest ⟨aupsert s.me c { ent with meter := v }, s.nm,
        s.refresh, s.republish ++ [ent.eid], s.ctr⟩

/-- Result of the whole meter diff for one account. -/
structure MSecOut where
  me : PDict MeterEntity
  nm : PDict MeterEntity
  refresh : List Nat
  republish : List Nat
  removed : List Nat
  ctr : Nat
deriving DecidableEq, Repr

/-- Lines 148-170: initialise `meter_entities` if absent, retire every entity
whose code is no longer fetched (lines 155-157), then run the
creation/update loop. -/
def processMeters (fm : PDict MeterVal) (ome : Option (PDict MeterEntity))
    (ctr : Nat) : MSecOut :=
  let me0 := ome.getD []
  let kept := me0.filter (fun q => (alookup fm q.1).isSome)
  let removed := (me0.filter (fun q => (alookup fm q.1).isNone)).map (fun q => q.2.eid)
  let s := mLoop fm ⟨kept, [], [], [], ctr⟩
  ⟨s.me, s.nm, s.refresh, s.republish, removed, s.ctr⟩

/-! ## The per-account body of `_entity_updater` (lines 126-202) -/

/-- Loop-carried state of the account loop: the registry dict, the three
`new_*` dicts, the log and the allocation counter. -/
structure LoopAcc where
  ce : PDict AccountEntity
  na : PDict AccountEntity
  nm : PDict MeterEntity
  ni : PDict InvoiceEntity
  log : CycleLog
  ctr : Nat
deriving DecidableEq, Repr

/-- Log contribution of lines 129-133 (new account sighted). -/
def logNewAcct (lg : CycleLog) (acode : String) (eid : Nat) : CycleLog :=
  { lg with
    accountsProcessed := lg.accountsProcessed ++ [acode],
    refreshTasks := lg.refreshTasks ++ [eid],
    meterFetches := lg.meterFetches ++ [acode] }

/-- Log contribution of lines 134-136 (existing account republished). -/
def logOldAcct (lg : CycleLog) (acode : String) (eid : Nat) : CycleLog :=
  { lg with
    accountsProcessed := lg.accountsProcessed ++ [acode],
    republishes := lg.republishes ++ [eid],
    meterFetches := lg.meterFetches ++ [acode] }

/-- Lines 204-223 happen per account at line 216 only for accounts; meters
and invoices live inside their account entity.  This helper writes the final
account entity back: new accounts into `new_accounts`, existing ones into the
registry (modelling in-place mutation of the shared object). -/
def writeback (acode : String) (isNew : Bool) (e : AccountEntity) (acc : LoopAcc) : LoopAcc :=
  if isNew then { acc with na := aupsert acc.na acode e }
  else { acc with ce := aupsert acc.ce acode e }

/-- Lines 176-202: the invoice filter check and last-invoice processing for
one account, ending in the writeback. -/
def finishA (cfg : Config) (acode : String) (ires : Except Unit (Option Invoice))
    (isNew : Bool) (e : AccountEntity) (acc : LoopAcc) : LoopAcc :=
  let lg0 := { acc.log with invoiceStage := acc.log.invoiceStage ++ [acode] }
  if invoiceSkip cfg.invoices_filter acode then
    writeback acode isNew e { acc with log := lg0 }
  else
    let lg1 := { lg0 with invoiceFetches := lg0.invoiceFetches ++ [acode] }
    match ires with
    | .error _ =>
      writeback acode isNew e
        { acc with log := { lg1 with invoiceErrors := lg1.invoiceErrors ++ [acode] } }
    | .ok none => writeback acode isNew e { acc with log := lg1 }
    | .ok (some inv) =>
      match e.invoice_entity with
      | none =>
        let ie : InvoiceEntity := ⟨acc.ctr, inv⟩
        writeback acode isNew { e with invoice_entity := some ie }
          { acc with
            ni := aupsert acc.ni inv.invoice_id ie,
            ctr := acc.ctr + 1,
            log := { lg1 with refreshTasks := lg1.refreshTasks ++ [ie.eid] } }
      | some ie =>
        if ie.invoice.invoice_id = inv.invoice_id then
          writeback acode isNew e { acc with log := lg1 }
        else
          writeback acode isNew { e with invoice_entity := some { ie with invoice := inv } }
            { acc with log := { lg1 with republishes := lg1.republishes ++ [e.eid] } }

/-- Lines 138-202 given the resolved account entity: meter fetch/filter/diff
then invoice handling.  A `.crash` of the filter propagates (it is not a
`MosenergosbytException`), carrying the partially mutated state. -/
def processAccount2 (cfg : Config) (acode : String) (acct : RAccount)
    (e : AccountEntity) (isNew : Bool) (acc : LoopAcc) : Except (PyErr × LoopAcc) LoopAcc :=
  match fetchAndFilter cfg acode acct.metersRes with
  | .crash pe => .error (pe, acc)
  | .perror =>
    .ok (finishA cfg acode acct.invoiceRes isNew e
      { acc with log := { acc.log with meterErrors := acc.log.meterErrors ++ [acode] } })
  | .ok fm =>
    let s := processMeters fm e.meter_entities acc.ctr
    .ok (finishA cfg acode acct.invoiceRes isNew { e with meter_entities := some s.me }
      { acc with
        nm := amerge acc.nm s.nm,
        ctr := s.ctr,
        log := { acc.log with
          refreshTasks := acc.log.refreshTasks ++ s.refresh,
          removeTasks := acc.log.removeTasks ++ s.removed,
          republishes := acc.log.republishes ++ s.republish } })

/-- Lines 126-202 for one account: resolve or create the `MESAccountSensor`
(lines 129-136), then the rest.  An existing entity's `account` field is
replaced in place before the meter fetch, so that update is written into the
registry immediately. -/
def processAccount (cfg : Config) (p : String × RAccount) (acc : LoopAcc) :
    Except (PyErr × LoopAcc) LoopAcc :=
  match alookup acc.ce p.1 with
  | none =>
    processAccount2 cfg p.1 p.2 ⟨acc.ctr, p.2, none, none⟩ true
      { acc with ctr := acc.ctr + 1, log := logNewAcct acc.log p.1 acc.ctr }
  | some x =>
    processAccount2 cfg p.1 p.2 { x with account := p.2 } false
      { acc with
        ce := aupsert acc.ce p.1 { x with account := p.2 },
        log := logOldAcct acc.log p.1 x.eid }

/-- The account loop of line 126, stopping at the first uncaught exception. -/
def loopAccounts (cfg : Config) : List (String × RAccount) → LoopAcc →
    Except (PyErr × LoopAcc) LoopAcc
  | [], acc => .ok acc
  | p :: rest, acc =>
    match processAccount cfg p acc with
    | .error e => .error e
    | .ok acc2 => loopAccounts cfg rest acc2

/-! ## Session handling and the whole cycle (lines 87-223) -/

/-- Lines 88-98: `login` if not logged in; `logout` then `login` if the
authentication age exceeds `CONF_LOGIN_TIMEOUT`; returns whether the cycle
may proceed. -/
def sessionOk (cfg : Config) (api : ApiState) (now : Nat) (beh : Behavior) : Bool :=
  if api.is_logged_in then
    if api.logged_in_at + cfg.login_timeout ≤ now then beh.logout_ok && beh.login_ok
    else true
  else beh.login_ok

/-- `_entity_updater` (lines 87-223), for an entry whose `API` object exists:
session check, account listing, the per-account loop, the barrier join (no
state effect), the three `async_add_entities` batches and the final
`created_entities.update(new_accounts)` merge. -/
def entity_updater (cfg : Config) (api : ApiState) (now : Nat) (beh : Behavior)
    (st : PState) : CycleOut :=
  if sessionOk cfg api now beh then
    match beh.accountsRes with
    | .error _ => ⟨.listFailed, st, emptyLog⟩
    | .ok accs =>
      match loopAccounts cfg accs ⟨st.created_entities.getD [], [], [], [], emptyLog, st.nextEid⟩ with
      | .error (pe, acc) => ⟨.crashed pe, ⟨some acc.ce, acc.ctr⟩, acc.log⟩
      | .ok acc =>
        ⟨.done acc.na.length acc.nm.length acc.ni.length,
          ⟨some (amerge acc.ce acc.na), acc.ctr⟩, acc.log⟩
  else ⟨.authFailed, st, emptyLog⟩

/-- Modelled from the spec claim: session establishment (login, or
timeout-driven logout-then-login) fails. -/
def session_establishment_fails (cfg : Config) (api : ApiState) (now : Nat)
    (beh : Behavior) : Prop :=
  (api.is_logged_in = false ∧ beh.login_ok = false) ∨
    (api.is_logged_in = true ∧ api.logged_in_at + cfg.login_timeout ≤ now ∧
      (beh.logout_ok = false ∨ beh.login_ok = false))

instance (cfg : Config) (api : ApiState) (now : Nat) (beh : Behavior) :
    Decidable (session_establishment_fails cfg api now beh) := by
  unfold session_establishment_fails
  infer_instance

/-! ## Service-call subsystem (lines 226-430) -/

/-- The mutually exclusive meter identifier of a service payload. -/
inductive Ident
  | entity (s : String)
  | code (s : String)
deriving DecidableEq, Repr

/-- Validated payload of `push_indications` / `calculate_indications`. -/
structure CallData where
  ident : Ident
  indications : List Int
  incremental : Bool
  ignore_period : Bool
  create_notif : Bool
deriving DecidableEq, Repr

/-- Python truthiness of a `meter.meter` attribute: a `Meter` object is
truthy; a (buggy) string value is truthy iff non-empty. -/
def truthyMV : MeterVal → Bool
  | .m _ => true
  | .s str => !(str == "")

/-- `_check_entity_id` / `_check_meter_code` (lines 230-234).  The meter-code
check dereferences `meter.meter.meter_code`, an `AttributeError` when the
backing value is a (truthy) string. -/
def checkIdent : Ident → MeterEntity → Except PyErr Bool
  | .entity x, ment => .ok (truthyMV ment.meter && (ment.entity_id == x))
  | .code x, ment =>
    if truthyMV ment.meter then
      match ment.meter with
      | .m me => .ok (me.meter_code == x)
      | .s _ => .error .attrError
    else .ok false

/-- Scan one account's meter entities in order (line 248). -/
def findInMeters (ident : Ident) : PDict MeterEntity → Except PyErr (Option MeterEntity)
  | [] => .ok none
  | (_, ment) :: rest =>
    match checkIdent ident ment with
    | .error e => .error e
    | .ok true => .ok (some ment)
    | .ok false => findInMeters ident rest

/-- Scan one entry's account sensors (line 247); `meter_entities` being
`None` raises `AttributeError`. -/
def findInAccounts (ident : Ident) : PDict AccountEntity → Except PyErr (Option MeterEntity)
  | [] => .ok none
  | (_, ae) :: rest =>
    match ae.meter_entities with
    | none => .error .attrError
    | some ms =>
      match findInMeters ident ms with
      | .error e => .error e
      | .ok (some m) => .ok (some m)
      | .ok none => findInAccounts ident rest

/-- `_find_meter_entity` (lines 236-252): scan every registered meter entity
across all managed entries; first match wins, `none` if nothing matches. -/
def find_meter_entity (ident : Ident) :
    List (String × PDict AccountEntity) → Except PyErr (Option (String × MeterEntity))
  | [] => .ok none
  | (entry_id, accs) :: rest =>
    match findInAccounts ident accs with
    | .error e => .error e
    | .ok (some m) => .ok (some (entry_id, m))
    | .ok none => find_meter_entity ident rest

/-- Result of a push/calculate service call. -/
inductive OpResult
  | crash (e : PyErr)
  | meterNotFound
  | unsupported
  | countError
  | apiError
  | okDone
deriving DecidableEq, Repr

/-- Observable effects of a push/calculate service call. -/
structure OpOut where
  result : OpResult
  providerCalled : Bool
  submitted : Option (List Int)
  eventFired : Bool
  notifCreated : Bool
  refreshRequested : Bool
deriving DecidableEq, Repr

/-- `async_push_indications` (lines 267-343): resolve the meter entity, check
the `save_indications` capability, resolve effective values, submit, then on
success fire the push-result event, optionally notify, and request an
out-of-cycle refresh when an updater is registered for the entry. -/
def push_indications (reg : List (String × PDict AccountEntity))
    (updaterRegistered : Bool) (call : CallData) : OpOut :=
  match find_meter_entity call.ident reg with
  | .error e => ⟨.crash e, false, none, false, false, false⟩
  | .ok none => ⟨.meterNotFound, false, none, false, false, false⟩
  | .ok (some (_, ment)) =>
    match ment.meter with
    | .s _ => ⟨.unsupported, false, none, false, false, false⟩
    | .m me =>
      if me.supportsSave then
        let inds := get_real_indications call.incremental call.indications
          me.last_indications me.submitted_indications
        match me.saveRes with
        | .error .countErr => ⟨.countError, true, some inds, false, false, false⟩
        | .error .apiErr => ⟨.apiError, true, some inds, false, false, false⟩
        | .ok _ => ⟨.okDone, true, some inds, true, call.create_notif, updaterRegistered⟩
      else ⟨.unsupported, false, none, false, false, false⟩

/-- `async_calculate_indications` (lines 345-416): same resolution and delta
computation, `get_charge_indications` capability, calculation-result event;
never requests a refresh. -/
def calculate_indications (reg : List (String × PDict AccountEntity))
    (call : CallData) : OpOut :=
  match find_meter_entity call.ident reg with
  | .error e => ⟨.crash e, false, none, false, false, false⟩
  | .ok none => ⟨.meterNotFound, false, none, false, false, false⟩
  | .ok (some (_, ment)) =>
    match ment.meter with
    | .s _ => ⟨.unsupported, false, none, false, false, false⟩
    | .m me =>
      if me.supportsCalc then
        let inds := get_real_indications call.incremental call.indications
          me.last_indications me.submitted_indications
        match me.calcRes with
        | .error .countErr => ⟨.countError, true, some inds, false, false, false⟩
        | .error .apiErr => ⟨.apiError, true, some inds, false, false, false⟩
        | .ok _ => ⟨.okDone, true, some inds, true, call.create_notif, false⟩
      else ⟨.unsupported, false, none, false, false, false⟩

/-! ## Setup decision (`async_setup_entry`, lines 453-472) -/

/-- What `async_setup_entry` does after the first synchronous cycle. -/
structure SetupOut where
  returned : Bool
  servicesRegistered : Bool
  updaterScheduled : Bool
deriving DecidableEq, Repr

/-- Lines 453-472 applied to the first cycle's outcome: `False` result →
setup returns `False`; a summary with `sum(result) == 0` → warn and return
`True` WITHOUT registering services or the periodic trigger; otherwise
register both and return `True`.  An uncaught exception propagates (`none`).
-/
def setup_after_first_cycle (res : CycleResult) : Option SetupOut :=
  match res with
  | .crashed _ => none
  | .authFailed => some ⟨false, false, false⟩
  | .listFailed => some ⟨false, false, false⟩
  | .done a m i => if a + m + i = 0 then some ⟨true, false, false⟩ else some ⟨true, true, true⟩

/-! ## Concrete instances used by witnesses and counterexamples -/

/-- A two-character-coded electricity meter supporting both capabilities. -/
def mEx : Meter :=
  ⟨"M1", "ACC1", [some 100], [some 120], true, true, .ok "saved", .ok ⟨"2020-01", 10, "c"⟩⟩

/-- A meter with code `B`, backing the diff-scenario witness. -/
def mB : Meter := { mEx with meter_code := "B" }

/-- A meter with code `C`, backing the diff-scenario witness. -/
def mC : Meter := { mEx with meter_code := "C" }

/-- A concrete invoice. -/
def invEx : Invoice := ⟨"INV1", 1⟩

/-- An account whose meter and invoice fetches succeed. -/
def raEx : RAccount := ⟨1, .ok [("M1", mEx)], .ok (some invEx)⟩

/-- An account whose meter fetch raises a provider error. -/
def raErr : RAccount := ⟨2, .error (), .ok (some ⟨"INV2", 2⟩)⟩

/-- Provider behaviour: one healthy account. -/
def behEx : Behavior := ⟨true, true, .ok [("ACC1", raEx)]⟩

/-- Provider behaviour: account `X` with failing meter fetch, then healthy
account `Y`. -/
def behTwo : Behavior := ⟨true, true, .ok [("X", raErr), ("Y", raEx)]⟩

/-- Provider behaviour: empty account listing. -/
def behEmpty : Behavior := ⟨true, true, .ok []⟩

/-- Provider behaviour: login fails. -/
def behNoLogin : Behavior := ⟨false, true, .ok [("ACC1", raEx)]⟩

/-- Configuration without filters. -/
def cfgNoF : Config := ⟨100, none, none⟩

/-- Configuration with `CONF_INVOICES` explicitly `False`. -/
def cfgFls : Config := ⟨100, none, some .fls⟩

/-- Configuration with an explicit meter allow-list for `ACC1`. -/
def cfgCodes : Config := ⟨100, some [("ACC1", .codes ["M1"])], none⟩

/-- A freshly authenticated session. -/
def apiEx : ApiState := ⟨true, 0⟩

/-- A logged-out session. -/
def apiOut : ApiState := ⟨false, 0⟩

/-- Empty persistent state. -/
def st0 : PState := ⟨none, 0⟩

/-! ## Supporting lemmas for the indication-resolution claims -/

theorem zip3_length (a : List Int) (l s : List (Option Int)) :
    (zip3 a l s).length = min a.length (min l.length s.length) := by
  induction a generalizing l s with
  | nil => simp [zip3]
  | cons x xs ih =>
    cases l with
    | nil => simp [zip3]
    | cons y ys =>
      cases s with
      | nil => simp [zip3]
      | cons z zs =>
        simp [zip3, ih, Nat.succ_min_succ]

theorem pyOrN_eq_amendedDelta (s l : Option Int) :
    pyOrN s (pyOrN l 0) = amendedDelta s l := by
  cases s with
  | none =>
    cases l with
    | none => rfl
    | some y =>
      by_cases hy : y = 0 <;> simp [pyOrN, amendedDelta, amendedLastPart, hy]
  | some x =>
    by_cases hx : x = 0
    · cases l with
      | none => simp [pyOrN, amendedDelta, amendedLastPart, hx]
      | some y =>
        by_cases hy : y = 0 <;> simp [pyOrN, amendedDelta, amendedLastPart, hx, hy]
    · simp [pyOrN, amendedDelta, hx]

theorem zip3_getElem (raw : List Int) (last subm : List (Option Int)) (i : Nat) :
    (zip3 raw last subm)[i]? =
      match raw[i]?, last[i]?, subm[i]? with
      | some a, some l, some s => some (a, l, s)
      | _, _, _ => none := by
  induction raw generalizing last subm i with
  | nil => simp [zip3]
  | cons x xs ih =>
    cases last with
    | nil => simp [zip3]
    | cons y ys =>
      cases subm with
      | nil =>
        simp only [zip3, List.getElem?_nil]
        cases raw2 : (x :: xs)[i]? <;> cases last2 : (y :: ys)[i]? <;> rfl
      | cons z zs =>
        cases i with
        | zero => simp [zip3]
        | succ j => simpa [zip3] using ih ys zs j

/-! ## Claims about indication resolution and the service handlers -/

/-- C3 (amended): for every push or calculate call on a resolved meter, if
`incremental` is false the effective values equal `raw_values` verbatim; if
`incremental` is true the effective value at each position i equals
`raw_values[i]` plus the submitted indication at i if present AND NONZERO,
else the last indication at i if present and nonzero, else 0 (Python
truthiness: a submitted value of `None` or `0` falls back to the last
indication). -/
theorem C3_delta_resolution (raw : List Int) (last subm : List (Option Int)) (i : Nat) :
    get_real_indications false raw last subm = raw ∧
    (get_real_indications true raw last subm)[i]? =
      (match raw[i]?, last[i]?, subm[i]? with
       | some a, some l, some s => some (a + amendedDelta s l)
       | _, _, _ => none) := by
  constructor
  · simp [get_real_indications]
  · simp only [get_real_indications, if_true, List.getElem?_map]
    rw [zip3_getElem]
    cases raw[i]? <;> cases last[i]? <;> cases subm[i]? <;>
      simp [pyOrN_eq_amendedDelta]

/-- C3 counterexample to the claim as stated: with `raw_values=[2]`,
`last_indications=[100]` and a PRESENT submitted indication `0`, the claim
(submitted takes precedence whenever present) predicts `[2 + 0] = [2]`, but
the code computes `2 + (0 or 100 or 0) = 102`. -/
theorem C3_counterexample :
    get_real_indications true [2] [some 100] [some 0] ≠
      [2 + claimedDelta (some 0) (some 100)] := by decide

/-- C9: for every incremental push or calculate call, the effective value
tuple has length `min |raw_values| (min |last_indications|
|submitted_indications|)` — excess caller-supplied values are silently
truncated by `zip`, not rejected. -/
theorem C9_incremental_truncates (raw : List Int) (last subm : List (Option Int)) :
    (get_real_indications true raw last subm).length =
      min raw.length (min last.length subm.length) := by
  simp [get_real_indications, zip3_length]

/-- C4: the code at its failing input.  With fetched meters `{"M1": mEx}` and
allow-list `["M1"]`, line 146 produces the EMPTY mapping (it iterates dict
keys, unpacking the two-character code into two characters), whereas the
spec-modelled restriction keeps `{"M1": mEx}`; a meter code whose length is
not 2 raises `ValueError`; and the full fetch-and-filter step with the
explicit-list config therefore feeds an empty meter set to the diff. -/
theorem C4_filter_bug :
    filterMetersCode ["M1"] [("M1", mEx)] = .ok [] ∧
    filterMetersSpec ["M1"] [("M1", mEx)] = [("M1", mEx)] ∧
    filterMetersCode ["M123"] [("M123", mEx)] = .error .valueError ∧
    fetchAndFilter cfgCodes "ACC1" (.ok [("M1", mEx)]) = .ok [] := by decide

/-- C5: the code at its failing input.  With `CONF_INVOICES = False`,
`use_invoice_filter` (line 102) is falsy, so the skip check never runs
(`invoiceSkip` is `false`) and the cycle STILL fetches the account's invoice,
contradicting the claimed "skip invoice handling" semantics whose dead
implementation sits at lines 180-181. -/
theorem C5_invoice_filter_bug :
    invoiceSkip (some IFilter.fls) "ACC1" = false ∧
    (entity_updater cfgFls apiEx 0 behEx st0).log.invoiceFetches = ["ACC1"] ∧
    (entity_updater cfgFls apiEx 0 behEx st0).result = .done 1 1 1 := by decide

/-- C8: for every push or calculate call whose identifier matches no
registered meter entity, the operation aborts with a meter-not-found error:
no provider call is made and no result event is emitted. -/
theorem C8_meter_not_found (reg : List (String × PDict AccountEntity))
    (ureg : Bool) (call : CallData)
    (h : find_meter_entity call.ident reg = .ok none) :
    (push_indications reg ureg call).result = .meterNotFound ∧
    (push_indications reg ureg call).providerCalled = false ∧
    (push_indications reg ureg call).eventFired = false ∧
    (calculate_indications reg call).result = .meterNotFound ∧
    (calculate_indications reg call).providerCalled = false ∧
    (calculate_indications reg call).eventFired = false := by
  simp [push_indications, calculate_indications, h]

/-- A concrete service payload identifying meter code `M1`. -/
def callEx : CallData := ⟨.code "M1", [1], false, false, false⟩

/-- C8 witness: with an empty registry the resolution of `meter_code="M1"`
finds nothing and both operations abort without provider call or event. -/
theorem C8_witness :
    find_meter_entity callEx.ident [] = .ok none ∧
    ((push_indications [] true callEx).result = .meterNotFound ∧
      (push_indications [] true callEx).providerCalled = false ∧
      (push_indications [] true callEx).eventFired = false ∧
      (calculate_indications [] callEx).result = .meterNotFound ∧
      (calculate_indications [] callEx).providerCalled = false ∧
      (calculate_indications [] callEx).eventFired = false) :=
  ⟨by decide, C8_meter_not_found [] true callEx (by decide)⟩

/-- C10: when the first cycle succeeds but creates zero accounts, meters and
invoices, setup returns `True` yet registers neither the services nor the
periodic update trigger. -/
theorem C10_setup_zero_entities (cfg : Config) (api : ApiState) (now : Nat)
    (beh : Behavior) (st : PState)
    (h : (entity_updater cfg api now beh st).result = .done 0 0 0) :
    setup_after_first_cycle (entity_updater cfg api now beh st).result =
      some ⟨true, false, false⟩ := by
  rw [h]
  rfl

/-- C10 witness: an empty account listing yields a `(0, 0, 0)` first cycle
and setup returns `True` with nothing registered or scheduled. -/
theorem C10_witness :
    (entity_updater cfgNoF apiEx 0 behEmpty st0).result = .done 0 0 0 ∧
    setup_after_first_cycle (entity_updater cfgNoF apiEx 0 behEmpty st0).result =
      some ⟨true, false, false⟩ :=
  ⟨by decide, C10_setup_zero_entities cfgNoF apiEx 0 behEmpty st0 (by decide)⟩

/-! ## Lemmas about the meter diff -/


theorem meterEntity_update_self (e : MeterEntity) (v : MeterVal) (h : e.meter = v) :
    { e with meter := v } = e := by
  cases e
  cases h
  rfl

theorem mLoop_me_not_mem (fm : PDict MeterVal) (s : MLoopSt) (c : String)
    (h : c ∉ fm.map Prod.fst) : alookup (mLoop fm s).me c = alookup s.me c := by
  induction fm generalizing s with
  | nil => rfl
  | cons q rest ih =>
    obtain ⟨q1, q2⟩ := q
    have h1 : c ≠ q1 := fun hc => h (by simp [hc])
    have h2 : c ∉ rest.map Prod.fst := fun hc => h (by simp [hc])
    cases hq : alookup s.me q1 with
    | none =>
      simp only [mLoop, hq]
      rw [ih _ h2]
      exact alookup_aupsert_ne _ _ _ _ h1
    | some ent =>
      simp only [mLoop, hq]
      rw [ih _ h2]
      exact alookup_aupsert_ne _ _ _ _ h1

theorem mLoop_nm_not_mem (fm : PDict MeterVal) (s : MLoopSt) (c : String)
    (h : c ∉ fm.map Prod.fst) : alookup (mLoop fm s).nm c = alookup s.nm c := by
  induction fm generalizing s with
  | nil => rfl
  | cons q rest ih =>
    obtain ⟨q1, q2⟩ := q
    have h1 : c ≠ q1 := fun hc => h (by simp [hc])
    have h2 : c ∉ rest.map Prod.fst := fun hc => h (by simp [hc])
    cases hq : alookup s.me q1 with
    | none =>
      simp only [mLoop, hq]
      rw [ih _ h2]
      exact alookup_aupsert_ne _ _ _ _ h1
    | some ent =>
      simp only [mLoop, hq]
      rw [ih _ h2]

theorem mLoop_ctr_le (fm : PDict MeterVal) (s : MLoopSt) :
    s.ctr ≤ (mLoop fm s).ctr := by
  induction fm generalizing s with
  | nil => exact Nat.le_refl _
  | cons q rest ih =>
    obtain ⟨q1, q2⟩ := q
    cases hq : alookup s.me q1 with
    | none =>
      simp only [mLoop, hq]
      exact Nat.le_trans (Nat.le_succ _)
        (ih ⟨aupsert s.me q1 ⟨s.ctr, "", q2⟩, aupsert s.nm q1 ⟨s.ctr, "", q2⟩,
          s.refresh ++ [s.ctr], s.republish, s.ctr + 1⟩)
    | some ent =>
      simp only [mLoop, hq]
      exact ih ⟨aupsert s.me q1 { ent with meter := q2 }, s.nm, s.refresh,
        s.republish ++ [ent.eid], s.ctr⟩

theorem mLoop_refresh_mem (fm : PDict MeterVal) (s : MLoopSt) (x : Nat)
    (h : x ∈ (mLoop fm s).refresh) : x ∈ s.refresh ∨ s.ctr ≤ x := by
  induction fm generalizing s with
  | nil => exact Or.inl h
  | cons q rest ih =>
    obtain ⟨q1, q2⟩ := q
    cases hq : alookup s.me q1 with
    | none =>
      simp only [mLoop, hq] at h
      rcases ih _ h with h2 | h2
      · rcases List.mem_append.mp h2 with h3 | h3
        · exact Or.inl h3
        · simp at h3
          exact Or.inr (h3 ▸ Nat.le_refl _)
      · exact Or.inr (Nat.le_trans (Nat.le_succ _) h2)
    | some ent =>
      simp only [mLoop, hq] at h
      have h2 := ih ⟨aupsert s.me q1 { ent with meter := q2 }, s.nm, s.refresh,
        s.republish ++ [ent.eid], s.ctr⟩ h
      exact h2

theorem mLoop_refresh_mono (fm : PDict MeterVal) (s : MLoopSt) (x : Nat)
    (h : x ∈ s.refresh) : x ∈ (mLoop fm s).refresh := by
  induction fm generalizing s with
  | nil => exact h
  | cons q rest ih =>
    obtain ⟨q1, q2⟩ := q
    cases hq : alookup s.me q1 with
    | none =>
      simp only [mLoop, hq]
      exact ih _ (List.mem_append.mpr (Or.inl h))
    | some ent =>
      simp only [mLoop, hq]
      exact ih _ h

theorem mLoop_republish_mono (fm : PDict MeterVal) (s : MLoopSt) (x : Nat)
    (h : x ∈ s.republish) : x ∈ (mLoop fm s).republish := by
  induction fm generalizing s with
  | nil => exact h
  | cons q rest ih =>
    obtain ⟨q1, q2⟩ := q
    cases hq : alookup s.me q1 with
    | none =>
      simp only [mLoop, hq]
      exact ih _ h
    | some ent =>
      simp only [mLoop, hq]
      exact ih _ (List.mem_append.mpr (Or.inl h))

theorem mLoop_update (fm : PDict MeterVal) (s : MLoopSt) (c : String)
    (v : MeterVal) (e0 : MeterEntity)
    (hn : (fm.map Prod.fst).Nodup) (hm : (c, v) ∈ fm)
    (he : alookup s.me c = some e0) :
    alookup (mLoop fm s).me c = some { e0 with meter := v } ∧
    e0.eid ∈ (mLoop fm s).republish ∧
    alookup (mLoop fm s).nm c = alookup s.nm c := by
  induction fm generalizing s with
  | nil => simp at hm
  | cons q rest ih =>
    obtain ⟨q1, q2⟩ := q
    simp only [List.map_cons, List.nodup_cons] at hn
    obtain ⟨hq1, hrest⟩ := hn
    rcases List.mem_cons.mp hm with hh | hh
    · injection hh with hc hv
      subst hc
      subst hv
      simp only [mLoop, he]
      refine ⟨?_, ?_, ?_⟩
      · rw [mLoop_me_not_mem _ _ _ hq1]
        exact alookup_aupsert_self _ _ _
      · exact mLoop_republish_mono _ _ _ (List.mem_append.mpr (Or.inr (by simp)))
      · rw [mLoop_nm_not_mem _ _ _ hq1]
    · have hcrest : c ∈ rest.map Prod.fst := List.mem_map.mpr ⟨(c, v), hh, rfl⟩
      have hq1c : q1 ≠ c := fun hc => hq1 (hc ▸ hcrest)
      cases hq : alookup s.me q1 with
      | none =>
        simp only [mLoop, hq]
        have he2 : alookup (aupsert s.me q1 ⟨s.ctr, "", q2⟩) c = some e0 := by
          rw [alookup_aupsert_ne _ _ _ _ (Ne.symm hq1c)]
          exact he
        rcases ih ⟨aupsert s.me q1 ⟨s.ctr, "", q2⟩, aupsert s.nm q1 ⟨s.ctr, "", q2⟩,
            s.refresh ++ [s.ctr], s.republish, s.ctr + 1⟩ hrest hh he2 with ⟨h1, h2, h3⟩
        refine ⟨h1, h2, ?_⟩
        rw [h3]
        exact alookup_aupsert_ne _ _ _ _ (Ne.symm hq1c)
      | some ent =>
        simp only [mLoop, hq]
        have he2 : alookup (aupsert s.me q1 { ent with meter := q2 }) c = some e0 := by
          rw [alookup_aupsert_ne _ _ _ _ (Ne.symm hq1c)]
          exact he
        have h4 := ih ⟨aupsert s.me q1 { ent with meter := q2 }, s.nm, s.refresh,
          s.republish ++ [ent.eid], s.ctr⟩ hrest hh he2
        exact h4

theorem mLoop_new (fm : PDict MeterVal) (s : MLoopSt) (c : String) (v : MeterVal)
    (hn : (fm.map Prod.fst).Nodup) (hm : (c, v) ∈ fm)
    (he : alookup s.me c = none) :
    ∃ ent : MeterEntity, alookup (mLoop fm s).me c = some ent ∧
      alookup (mLoop fm s).nm c = some ent ∧ ent.meter = v ∧
      s.ctr ≤ ent.eid ∧ ent.eid ∈ (mLoop fm s).refresh := by
  induction fm generalizing s with
  | nil => simp at hm
  | cons q rest ih =>
    obtain ⟨q1, q2⟩ := q
    simp only [List.map_cons, List.nodup_cons] at hn
    obtain ⟨hq1, hrest⟩ := hn
    rcases List.mem_cons.mp hm with hh | hh
    · injection hh with hc hv
      subst hc
      subst hv
      simp only [mLoop, he]
      refine ⟨⟨s.ctr, "", v⟩, ?_, ?_, rfl, Nat.le_refl _, ?_⟩
      · rw [mLoop_me_not_mem _ _ _ hq1]
        exact alookup_aupsert_self _ _ _
      · rw [mLoop_nm_not_mem _ _ _ hq1]
        exact alookup_aupsert_self _ _ _
      · exact mLoop_refresh_mono _ _ _ (List.mem_append.mpr (Or.inr (by simp)))
    · have hcrest : c ∈ rest.map Prod.fst := List.mem_map.mpr ⟨(c, v), hh, rfl⟩
      have hq1c : q1 ≠ c := fun hc => hq1 (hc ▸ hcrest)
      cases hq : alookup s.me q1 with
      | none =>
        simp only [mLoop, hq]
        have he2 : alookup (aupsert s.me q1 ⟨s.ctr, "", q2⟩) c = none := by
          rw [alookup_aupsert_ne _ _ _ _ (Ne.symm hq1c)]
          exact he
        rcases ih ⟨aupsert s.me q1 ⟨s.ctr, "", q2⟩, aupsert s.nm q1 ⟨s.ctr, "", q2⟩,
            s.refresh ++ [s.ctr], s.republish, s.ctr + 1⟩ hrest hh he2 with
          ⟨ent, h1, h2, h3, h4, h5⟩
        exact ⟨ent, h1, h2, h3, Nat.le_trans (Nat.le_succ _) h4, h5⟩
      | some ent2 =>
        simp only [mLoop, hq]
        have he2 : alookup (aupsert s.me q1 { ent2 with meter := q2 }) c = none := by
          rw [alookup_aupsert_ne _ _ _ _ (Ne.symm hq1c)]
          exact he
        have h4 := ih ⟨aupsert s.me q1 { ent2 with meter := q2 }, s.nm, s.refresh,
          s.republish ++ [ent2.eid], s.ctr⟩ hrest hh he2
        exact h4

theorem mLoop_establish (fm : PDict MeterVal) (s : MLoopSt) (c : String)
    (v : MeterVal) (hn : (fm.map Prod.fst).Nodup) (hm : (c, v) ∈ fm) :
    ∃ ent : MeterEntity, alookup (mLoop fm s).me c = some ent ∧ ent.meter = v := by
  cases he : alookup s.me c with
  | none =>
    rcases mLoop_new fm s c v hn hm he with ⟨ent, h1, _, h3, _, _⟩
    exact ⟨ent, h1, h3⟩
  | some e0 =>
    rcases mLoop_update fm s c v e0 hn hm he with ⟨h1, _, _⟩
    exact ⟨{ e0 with meter := v }, h1, rfl⟩

theorem mLoop_me_keyprop (fm : PDict MeterVal) (s : MLoopSt) (P : String → Bool)
    (h1 : ∀ p ∈ s.me, P p.1 = true) (h2 : ∀ p ∈ fm, P p.1 = true) :
    ∀ p ∈ (mLoop fm s).me, P p.1 = true := by
  induction fm generalizing s with
  | nil => exact h1
  | cons q rest ih =>
    obtain ⟨q1, q2⟩ := q
    have hq1 : P q1 = true := h2 (q1, q2) (List.mem_cons_self _ _)
    have h2r : ∀ p ∈ rest, P p.1 = true := fun p hp => h2 p (List.mem_cons_of_mem _ hp)
    cases hq : alookup s.me q1 with
    | none =>
      simp only [mLoop, hq]
      refine ih _ ?_ h2r
      intro p hp
      rcases mem_aupsert _ _ _ _ hp with hh | hh
      · rw [hh]
        exact hq1
      · exact h1 p hh
    | some ent =>
      simp only [mLoop, hq]
      refine ih _ ?_ h2r
      intro p hp
      rcases mem_aupsert _ _ _ _ hp with hh | hh
      · rw [hh]
        exact hq1
      · exact h1 p hh

theorem mLoop_fixpoint (fm : PDict MeterVal) (s : MLoopSt)
    (h : ∀ q ∈ fm, ∃ e0 : MeterEntity, alookup s.me q.1 = some e0 ∧ e0.meter = q.2) :
    (mLoop fm s).me = s.me ∧ (mLoop fm s).nm = s.nm ∧
    (mLoop fm s).refresh = s.refresh ∧ (mLoop fm s).ctr = s.ctr := by
  induction fm generalizing s with
  | nil => exact ⟨rfl, rfl, rfl, rfl⟩
  | cons q rest ih =>
    obtain ⟨q1, q2⟩ := q
    rcases h (q1, q2) (List.mem_cons_self _ _) with ⟨e0, he, hv⟩
    simp only [mLoop, he]
    rw [meterEntity_update_self e0 q2 hv, aupsert_self _ _ _ he]
    have hrest : ∀ q2m ∈ rest,
        ∃ e0m : MeterEntity,
          alookup (⟨s.me, s.nm, s.refresh, s.republish ++ [e0.eid], s.ctr⟩ : MLoopSt).me q2m.1 =
            some e0m ∧ e0m.meter = q2m.2 :=
      fun q2m hq2m => h q2m (List.mem_cons_of_mem _ hq2m)
    exact ih _ hrest

theorem processMeters_me (fm : PDict MeterVal) (ome : Option (PDict MeterEntity)) (ctr : Nat) :
    (processMeters fm ome ctr).me =
      (mLoop fm ⟨(ome.getD []).filter (fun q => (alookup fm q.1).isSome), [], [], [], ctr⟩).me := rfl

theorem processMeters_nm (fm : PDict MeterVal) (ome : Option (PDict MeterEntity)) (ctr : Nat) :
    (processMeters fm ome ctr).nm =
      (mLoop fm ⟨(ome.getD []).filter (fun q => (alookup fm q.1).isSome), [], [], [], ctr⟩).nm := rfl

theorem processMeters_refresh (fm : PDict MeterVal) (ome : Option (PDict MeterEntity)) (ctr : Nat) :
    (processMeters fm ome ctr).refresh =
      (mLoop fm ⟨(ome.getD []).filter (fun q => (alookup fm q.1).isSome), [], [], [], ctr⟩).refresh := rfl

theorem processMeters_republish (fm : PDict MeterVal) (ome : Option (PDict MeterEntity)) (ctr : Nat) :
    (processMeters fm ome ctr).republish =
      (mLoop fm ⟨(ome.getD []).filter (fun q => (alookup fm q.1).isSome), [], [], [], ctr⟩).republish := rfl

theorem processMeters_removed (fm : PDict MeterVal) (ome : Option (PDict MeterEntity)) (ctr : Nat) :
    (processMeters fm ome ctr).removed =
      ((ome.getD []).filter (fun q => (alookup fm q.1).isNone)).map (fun q => q.2.eid) := rfl

theorem processMeters_ctr (fm : PDict MeterVal) (ome : Option (PDict MeterEntity)) (ctr : Nat) :
    (processMeters fm ome ctr).ctr =
      (mLoop fm ⟨(ome.getD []).filter (fun q => (alookup fm q.1).isSome), [], [], [], ctr⟩).ctr := rfl

/-- The meter-entity map is a fixpoint of the diff against `fm`: every entry's
code is still fetched, and every fetched code maps to an entity already
backed by the fetched value. -/
def metersFix (fm : PDict MeterVal) (me : PDict MeterEntity) : Prop :=
  (∀ p ∈ me, (alookup fm p.1).isSome = true) ∧
  (∀ q ∈ fm, ∃ ent : MeterEntity, alookup me q.1 = some ent ∧ ent.meter = q.2)

theorem processMeters_fixpoint (fm : PDict MeterVal) (me : PDict MeterEntity)
    (ctr : Nat) (h : metersFix fm me) :
    (processMeters fm (some me) ctr).me = me ∧
    (processMeters fm (some me) ctr).nm = [] ∧
    (processMeters fm (some me) ctr).refresh = [] ∧
    (processMeters fm (some me) ctr).removed = [] ∧
    (processMeters fm (some me) ctr).ctr = ctr := by
  have hkept : me.filter (fun q => (alookup fm q.1).isSome) = me :=
    List.filter_eq_self.mpr h.1
  have hrem : me.filter (fun q => (alookup fm q.1).isNone) = [] := by
    rw [List.filter_eq_nil_iff]
    intro q hq
    have h1 := h.1 q hq
    cases halt : alookup fm q.1 with
    | none => rw [halt] at h1; simp at h1
    | some w => simp [halt]
  have hfix := mLoop_fixpoint fm ⟨me, [], [], [], ctr⟩ (by exact h.2)
  refine ⟨?_, ?_, ?_, ?_, ?_⟩
  · rw [processMeters_me, Option.getD_some, hkept]
    exact hfix.1
  · rw [processMeters_nm, Option.getD_some, hkept]
    exact hfix.2.1
  · rw [processMeters_refresh, Option.getD_some, hkept]
    exact hfix.2.2.1
  · rw [processMeters_removed, Option.getD_some, hrem]
    rfl
  · rw [processMeters_ctr, Option.getD_some, hkept]
    exact hfix.2.2.2

theorem processMeters_establish (fm : PDict MeterVal)
    (ome : Option (PDict MeterEntity)) (ctr : Nat)
    (hfm : (fm.map Prod.fst).Nodup) :
    metersFix fm (processMeters fm ome ctr).me := by
  constructor
  · rw [processMeters_me]
    apply mLoop_me_keyprop _ _ (fun c => (alookup fm c).isSome)
    · intro p hp
      exact (List.mem_filter.mp hp).2
    · intro p hp
      exact alookup_isSome_of_mem fm p.1 p.2 (by rw [Prod.mk.eta]; exact hp)
  · intro q hq
    rw [processMeters_me]
    exact mLoop_establish fm _ q.1 q.2 hfm (by rw [Prod.mk.eta]; exact hq)

/-- C1: for every account whose meter fetch (and filter) succeeds with meter
mapping `fm`, diffing against the registry's meter-entity map: every code
present in the map but absent from `fm` has its entity retired (removal task
scheduled) and its map entry deleted; every fetched code absent from the map
gets a newly created `MeterEntity` (fresh `eid`), registered in `new_meters`
and scheduled for an asynchronous refresh; every code present in both keeps
the same entity object (same `eid`, same `entity_id`) with only its backing
meter replaced, a forced republish scheduled, no new refresh task, and no
`new_meters` registration. -/
theorem C1_meter_diff (fm : PDict MeterVal) (ome : Option (PDict MeterEntity))
    (ctr : Nat) (hfm : (fm.map Prod.fst).Nodup)
    (hctr : ∀ p ∈ ome.getD [], p.2.eid < ctr) :
    (∀ p ∈ ome.getD [], alookup fm p.1 = none →
        alookup (processMeters fm ome ctr).me p.1 = none ∧
        p.2.eid ∈ (processMeters fm ome ctr).removed) ∧
    (∀ c v, (c, v) ∈ fm → alookup (ome.getD []) c = none →
        ∃ ent : MeterEntity, alookup (processMeters fm ome ctr).me c = some ent ∧
          alookup (processMeters fm ome ctr).nm c = some ent ∧ ent.meter = v ∧
          ctr ≤ ent.eid ∧ ent.eid ∈ (processMeters fm ome ctr).refresh) ∧
    (∀ c v e0, (c, v) ∈ fm → alookup (ome.getD []) c = some e0 →
        alookup (processMeters fm ome ctr).me c = some { e0 with meter := v } ∧
        e0.eid ∈ (processMeters fm ome ctr).republish ∧
        e0.eid ∉ (processMeters fm ome ctr).refresh ∧
        alookup (processMeters fm ome ctr).nm c = none) := by
  refine ⟨?_, ?_, ?_⟩
  · intro p hp hnone
    have hnot : p.1 ∉ fm.map Prod.fst := (alookup_eq_none_iff fm p.1).mp hnone
    constructor
    · rw [processMeters_me, mLoop_me_not_mem _ _ _ hnot]
      show alookup ((ome.getD []).filter (fun q => (alookup fm q.1).isSome)) p.1 = none
      rw [alookup_filter_key (fun c => (alookup fm c).isSome)]
      simp [hnone]
    · rw [processMeters_removed]
      exact List.mem_map.mpr ⟨p, List.mem_filter.mpr ⟨hp, by simp [hnone]⟩, rfl⟩
  · intro c v hm hnone
    have hkept : alookup ((ome.getD []).filter (fun q => (alookup fm q.1).isSome)) c = none := by
      rw [alookup_filter_key (fun c2 => (alookup fm c2).isSome)]
      simp [hnone]
    rw [processMeters_me, processMeters_nm, processMeters_refresh]
    exact mLoop_new fm ⟨(ome.getD []).filter (fun q => (alookup fm q.1).isSome),
      [], [], [], ctr⟩ c v hfm hm hkept
  · intro c v e0 hm hsome
    have hv : alookup fm c = some v := alookup_of_mem_nodup fm c v hfm hm
    have hkept : alookup ((ome.getD []).filter (fun q => (alookup fm q.1).isSome)) c = some e0 := by
      rw [alookup_filter_key (fun c2 => (alookup fm c2).isSome)]
      simp [hv, hsome]
    rw [processMeters_me, processMeters_nm, processMeters_refresh, processMeters_republish]
    rcases mLoop_update fm ⟨(ome.getD []).filter (fun q => (alookup fm q.1).isSome),
      [], [], [], ctr⟩ c v e0 hfm hm hkept with ⟨h1, h2, h3⟩
    refine ⟨h1, h2, ?_, ?_⟩
    · intro habs
      rcases mLoop_refresh_mem _ _ _ habs with h4 | h4
      · simp at h4
      · have h5 : (c, e0) ∈ ome.getD [] := mem_of_alookup_eq_some _ _ _ hsome
        have h6 := hctr (c, e0) h5
        exact Nat.lt_irrefl _ (Nat.lt_of_lt_of_le h6 h4)
    · rw [h3]
      rfl

/-- Meter entity with code `A` present in the registry before the diff. -/
def entA : MeterEntity := ⟨3, "sensor.a", .m { mEx with meter_code := "A" }⟩

/-- Meter entity with code `B` present in the registry before the diff. -/
def entB : MeterEntity := ⟨4, "sensor.b", .m mB⟩

/-- Registry meter map `{A, B}` for the diff-correctness scenario. -/
def meAB : PDict MeterEntity := [("A", entA), ("B", entB)]

/-- Fetched meter mapping `{B, C}` for the diff-correctness scenario. -/
def fmBC : PDict MeterVal := [("B", .m mB), ("C", .m mC)]

/-- C1 witness: the spec's own scenario — registry `{A, B}`, fetch `{B, C}`:
A is retired, B keeps its identity with content replaced and a republish (no
refresh task), C is created and scheduled for refresh. -/
theorem C1_witness :
    ((fmBC.map Prod.fst).Nodup ∧ ∀ p ∈ (some meAB : Option (PDict MeterEntity)).getD [],
        p.2.eid < 10) ∧
    ((∀ p ∈ (some meAB : Option (PDict MeterEntity)).getD [], alookup fmBC p.1 = none →
        alookup (processMeters fmBC (some meAB) 10).me p.1 = none ∧
        p.2.eid ∈ (processMeters fmBC (some meAB) 10).removed) ∧
      (∀ c v, (c, v) ∈ fmBC → alookup ((some meAB : Option (PDict MeterEntity)).getD []) c = none →
        ∃ ent : MeterEntity, alookup (processMeters fmBC (some meAB) 10).me c = some ent ∧
          alookup (processMeters fmBC (some meAB) 10).nm c = some ent ∧ ent.meter = v ∧
          10 ≤ ent.eid ∧ ent.eid ∈ (processMeters fmBC (some meAB) 10).refresh) ∧
      (∀ c v e0, (c, v) ∈ fmBC →
        alookup ((some meAB : Option (PDict MeterEntity)).getD []) c = some e0 →
        alookup (processMeters fmBC (some meAB) 10).me c = some { e0 with meter := v } ∧
        e0.eid ∈ (processMeters fmBC (some meAB) 10).republish ∧
        e0.eid ∉ (processMeters fmBC (some meAB) 10).refresh ∧
        alookup (processMeters fmBC (some meAB) 10).nm c = none)) :=
  ⟨⟨by decide, by decide⟩, C1_meter_diff fmBC (some meAB) 10 (by decide) (by decide)⟩

/-! ## Lemmas about the per-account body -/

theorem accountEntity_account_self (e : AccountEntity) (a : RAccount)
    (h : e.account = a) : { e with account := a } = e := by
  cases e
  cases h
  rfl

theorem accountEntity_me_self (e : AccountEntity) (o : Option (PDict MeterEntity))
    (h : e.meter_entities = o) : { e with meter_entities := o } = e := by
  cases e
  cases h
  rfl

theorem processAccount_new (cfg : Config) (p : String × RAccount) (acc : LoopAcc)
    (h : alookup acc.ce p.1 = none) :
    processAccount cfg p acc =
      processAccount2 cfg p.1 p.2 ⟨acc.ctr, p.2, none, none⟩ true
        { acc with ctr := acc.ctr + 1, log := logNewAcct acc.log p.1 acc.ctr } := by
  unfold processAccount
  rw [h]

theorem processAccount_old (cfg : Config) (p : String × RAccount) (acc : LoopAcc)
    (x : AccountEntity) (h : alookup acc.ce p.1 = some x) :
    processAccount cfg p acc =
      processAccount2 cfg p.1 p.2 { x with account := p.2 } false
        { acc with
          ce := aupsert acc.ce p.1 { x with account := p.2 },
          log := logOldAcct acc.log p.1 x.eid } := by
  unfold processAccount
  rw [h]

theorem processAccount2_crash (cfg : Config) (acode : String) (acct : RAccount)
    (e : AccountEntity) (isNew : Bool) (acc : LoopAcc) (pe : PyErr)
    (hff : fetchAndFilter cfg acode acct.metersRes = .crash pe) :
    processAccount2 cfg acode acct e isNew acc = .error (pe, acc) := by
  unfold processAccount2
  rw [hff]

theorem processAccount2_perror (cfg : Config) (acode : String) (acct : RAccount)
    (e : AccountEntity) (isNew : Bool) (acc : LoopAcc)
    (hff : fetchAndFilter cfg acode acct.metersRes = .perror) :
    processAccount2 cfg acode acct e isNew acc =
      .ok (finishA cfg acode acct.invoiceRes isNew e
        { acc with log := { acc.log with meterErrors := acc.log.meterErrors ++ [acode] } }) := by
  unfold processAccount2
  rw [hff]

theorem processAccount2_okm (cfg : Config) (acode : String) (acct : RAccount)
    (e : AccountEntity) (isNew : Bool) (acc : LoopAcc) (fm : PDict MeterVal)
    (hff : fetchAndFilter cfg acode acct.metersRes = .ok fm) :
    processAccount2 cfg acode acct e isNew acc =
      .ok (finishA cfg acode acct.invoiceRes isNew
        { e with meter_entities := some (processMeters fm e.meter_entities acc.ctr).me }
        { acc with
          nm := amerge acc.nm (processMeters fm e.meter_entities acc.ctr).nm,
          ctr := (processMeters fm e.meter_entities acc.ctr).ctr,
          log := { acc.log with
            refreshTasks := acc.log.refreshTasks ++ (processMeters fm e.meter_entities acc.ctr).refresh,
            removeTasks := acc.log.removeTasks ++ (processMeters fm e.meter_entities acc.ctr).removed,
            republishes := acc.log.republishes ++ (processMeters fm e.meter_entities acc.ctr).republish } }) := by
  unfold processAccount2
  rw [hff]

theorem writeback_log (acode : String) (isNew : Bool) (e : AccountEntity) (acc : LoopAcc) :
    (writeback acode isNew e acc).log = acc.log := by
  cases isNew <;> simp [writeback]

theorem writeback_nm (acode : String) (isNew : Bool) (e : AccountEntity) (acc : LoopAcc) :
    (writeback acode isNew e acc).nm = acc.nm := by
  cases isNew <;> simp [writeback]

theorem writeback_ni (acode : String) (isNew : Bool) (e : AccountEntity) (acc : LoopAcc) :
    (writeback acode isNew e acc).ni = acc.ni := by
  cases isNew <;> simp [writeback]

theorem writeback_ctr (acode : String) (isNew : Bool) (e : AccountEntity) (acc : LoopAcc) :
    (writeback acode isNew e acc).ctr = acc.ctr := by
  cases isNew <;> simp [writeback]

theorem writeback_ce_true (acode : String) (e : AccountEntity) (acc : LoopAcc) :
    (writeback acode true e acc).ce = acc.ce := by
  simp [writeback]

theorem writeback_na_true (acode : String) (e : AccountEntity) (acc : LoopAcc) :
    (writeback acode true e acc).na = aupsert acc.na acode e := by
  simp [writeback]

theorem writeback_ce_false (acode : String) (e : AccountEntity) (acc : LoopAcc) :
    (writeback acode false e acc).ce = aupsert acc.ce acode e := by
  simp [writeback]

theorem writeback_na_false (acode : String) (e : AccountEntity) (acc : LoopAcc) :
    (writeback acode false e acc).na = acc.na := by
  simp [writeback]

theorem writeback_ce_ne (acode : String) (isNew : Bool) (e : AccountEntity)
    (acc : LoopAcc) (k : String) (hk : k ≠ acode) :
    alookup (writeback acode isNew e acc).ce k = alookup acc.ce k := by
  cases isNew
  · rw [writeback_ce_false, alookup_aupsert_ne _ _ _ _ hk]
  · rw [writeback_ce_true]

theorem writeback_na_ne (acode : String) (isNew : Bool) (e : AccountEntity)
    (acc : LoopAcc) (k : String) (hk : k ≠ acode) :
    alookup (writeback acode isNew e acc).na k = alookup acc.na k := by
  cases isNew
  · rw [writeback_na_false]
  · rw [writeback_na_true, alookup_aupsert_ne _ _ _ _ hk]

/-- Lookup in the view the registry will have after the final
`created_entities.update(new_accounts)` (line 216): `new_accounts` entries
shadow registry entries. -/
def mergedLookup (acc : LoopAcc) (k : String) : Option AccountEntity :=
  match alookup acc.na k with
  | some v => some v
  | none => alookup acc.ce k

theorem writeback_merged (acode : String) (isNew : Bool) (e : AccountEntity)
    (acc : LoopAcc) (hna : alookup acc.na acode = none) :
    mergedLookup (writeback acode isNew e acc) acode = some e := by
  cases isNew
  · unfold mergedLookup
    rw [writeback_na_false, hna, writeback_ce_false, alookup_aupsert_self]
  · unfold mergedLookup
    rw [writeback_na_true, alookup_aupsert_self]

/-- Invoice part of the account-entity invariant: when invoice handling is
not skipped and the provider returns an invoice, the entity holds an invoice
entity with that invoice id. -/
def invoiceOk (cfg : Config) (acode : String) (ires : Except Unit (Option Invoice))
    (e : AccountEntity) : Prop :=
  invoiceSkip cfg.invoices_filter acode = false →
    match ires with
    | .ok (some inv) => ∃ ie : InvoiceEntity, e.invoice_entity = some ie ∧
        ie.invoice.invoice_id = inv.invoice_id
    | _ => True

/-- The account entity is a fixpoint of processing this account: its backing
account is current, its meter map is a fixpoint of the diff against the
fetched mapping, and its invoice entity reflects the fetched invoice id. -/
def consistent (cfg : Config) (acode : String) (acct : RAccount)
    (e : AccountEntity) : Prop :=
  e.account = acct ∧
  (∀ fm, fetchAndFilter cfg acode acct.metersRes = .ok fm →
      ∃ me, e.meter_entities = some me ∧ metersFix fm me) ∧
  invoiceOk cfg acode acct.invoiceRes e

/-- Log contribution of reaching the invoice stage (line 176). -/
def lgStage (lg : CycleLog) (acode : String) : CycleLog :=
  { lg with invoiceStage := lg.invoiceStage ++ [acode] }

/-- Log contribution of attempting the invoice fetch (line 188). -/
def lgInv (lg : CycleLog) (acode : String) : CycleLog :=
  lgStage { lg with invoiceFetches := lg.invoiceFetches ++ [acode] } acode

/-- Log contribution of a failed invoice fetch (line 202). -/
def lgInvErr (lg : CycleLog) (acode : String) : CycleLog :=
  { lgInv lg acode with invoiceErrors := (lgInv lg acode).invoiceErrors ++ [acode] }

theorem finishA_skip (cfg : Config) (acode : String) (ires : Except Unit (Option Invoice))
    (isNew : Bool) (e : AccountEntity) (acc : LoopAcc)
    (hskip : invoiceSkip cfg.invoices_filter acode = true) :
    finishA cfg acode ires isNew e acc =
      writeback acode isNew e { acc with log := lgStage acc.log acode } := by
  unfold finishA
  rw [if_pos hskip]
  rfl

theorem finishA_err (cfg : Config) (acode : String) (u : Unit)
    (isNew : Bool) (e : AccountEntity) (acc : LoopAcc)
    (hskip : invoiceSkip cfg.invoices_filter acode = false) :
    finishA cfg acode (.error u) isNew e acc =
      writeback acode isNew e { acc with log := lgInvErr acc.log acode } := by
  unfold finishA
  rw [if_neg (by simp [hskip])]
  rfl

theorem finishA_oknone (cfg : Config) (acode : String)
    (isNew : Bool) (e : AccountEntity) (acc : LoopAcc)
    (hskip : invoiceSkip cfg.invoices_filter acode = false) :
    finishA cfg acode (.ok none) isNew e acc =
      writeback acode isNew e { acc with log := lgInv acc.log acode } := by
  unfold finishA
  rw [if_neg (by simp [hskip])]
  rfl

theorem finishA_newinv (cfg : Config) (acode : String) (inv : Invoice)
    (isNew : Bool) (e : AccountEntity) (acc : LoopAcc)
    (hskip : invoiceSkip cfg.invoices_filter acode = false)
    (hie : e.invoice_entity = none) :
    finishA cfg acode (.ok (some inv)) isNew e acc =
      writeback acode isNew { e with invoice_entity := some ⟨acc.ctr, inv⟩ }
        { acc with
          ni := aupsert acc.ni inv.invoice_id ⟨acc.ctr, inv⟩,
          ctr := acc.ctr + 1,
          log := { lgInv acc.log acode with
            refreshTasks := (lgInv acc.log acode).refreshTasks ++ [acc.ctr] } } := by
  unfold finishA
  rw [if_neg (by simp [hskip]), hie]
  rfl

theorem finishA_oldinv (cfg : Config) (acode : String) (inv : Invoice)
    (ie : InvoiceEntity) (isNew : Bool) (e : AccountEntity) (acc : LoopAcc)
    (hskip : invoiceSkip cfg.invoices_filter acode = false)
    (hie : e.invoice_entity = some ie) :
    finishA cfg acode (.ok (some inv)) isNew e acc =
      if ie.invoice.invoice_id = inv.invoice_id then
        writeback acode isNew e { acc with log := lgInv acc.log acode }
      else
        writeback acode isNew { e with invoice_entity := some { ie with invoice := inv } }
          { acc with log := { lgInv acc.log acode with
            republishes := (lgInv acc.log acode).republishes ++ [e.eid] } } := by
  unfold finishA
  rw [if_neg (by simp [hskip]), hie]
  rfl

theorem finishA_shape (cfg : Config) (acode : String) (ires : Except Unit (Option Invoice))
    (isNew : Bool) (e : AccountEntity) (acc : LoopAcc) :
    ∃ (e2 : AccountEntity) (acc2 : LoopAcc),
      finishA cfg acode ires isNew e acc = writeback acode isNew e2 acc2 ∧
      e2.account = e.account ∧ e2.meter_entities = e.meter_entities ∧
      invoiceOk cfg acode ires e2 ∧
      acc2.ce = acc.ce ∧ acc2.na = acc.na := by
  by_cases hskip : invoiceSkip cfg.invoices_filter acode = true
  · refine ⟨e, { acc with log := lgStage acc.log acode },
      finishA_skip cfg acode ires isNew e acc hskip, rfl, rfl, ?_, rfl, rfl⟩
    intro hns
    rw [hskip] at hns
    cases hns
  · rw [Bool.not_eq_true] at hskip
    cases ires with
    | error u =>
      refine ⟨e, { acc with log := lgInvErr acc.log acode },
        finishA_err cfg acode u isNew e acc hskip, rfl, rfl, ?_, rfl, rfl⟩
      intro _
      trivial
    | ok oinv =>
      cases oinv with
      | none =>
        refine ⟨e, { acc with log := lgInv acc.log acode },
          finishA_oknone cfg acode isNew e acc hskip, rfl, rfl, ?_, rfl, rfl⟩
        intro _
        trivial
      | some inv =>
        cases hie : e.invoice_entity with
        | none =>
          refine ⟨{ e with invoice_entity := some ⟨acc.ctr, inv⟩ },
            { acc with
              ni := aupsert acc.ni inv.invoice_id ⟨acc.ctr, inv⟩,
              ctr := acc.ctr + 1,
              log := { lgInv acc.log acode with
                refreshTasks := (lgInv acc.log acode).refreshTasks ++ [acc.ctr] } },
            finishA_newinv cfg acode inv isNew e acc hskip hie, rfl, rfl, ?_, rfl, rfl⟩
          intro _
          exact ⟨⟨acc.ctr, inv⟩, rfl, rfl⟩
        | some ie =>
          by_cases hid : ie.invoice.invoice_id = inv.invoice_id
          · refine ⟨e, { acc with log := lgInv acc.log acode }, ?_, rfl, rfl, ?_, rfl, rfl⟩
            · rw [finishA_oldinv cfg acode inv ie isNew e acc hskip hie, if_pos hid]
            · intro _
              exact ⟨ie, hie, hid⟩
          · refine ⟨{ e with invoice_entity := some { ie with invoice := inv } },
              { acc with log := { lgInv acc.log acode with
                republishes := (lgInv acc.log acode).republishes ++ [e.eid] } },
              ?_, rfl, rfl, ?_, rfl, rfl⟩
            · rw [finishA_oldinv cfg acode inv ie isNew e acc hskip hie, if_neg hid]
            · intro _
              exact ⟨{ ie with invoice := inv }, rfl, rfl⟩

/-! ## Fetch-and-filter helper lemmas -/

/-- Key uniqueness of a fetched meters dict (Python dict keys are unique). -/
def metersNodup (a : RAccount) : Prop :=
  match a.metersRes with
  | .error _ => True
  | .ok ms => (ms.map Prod.fst).Nodup

theorem metersAsVals_keys (ms : PDict Meter) :
    (metersAsVals ms).map Prod.fst = ms.map Prod.fst := by
  induction ms with
  | nil => rfl
  | cons p t ih =>
    simp only [metersAsVals, List.map_cons] at ih ⊢
    rw [ih]

theorem filterBuggyGo_nodup (cs : List String) (keys : List String)
    (acc : PDict MeterVal) (hn : (acc.map Prod.fst).Nodup) (r : PDict MeterVal)
    (h : filterBuggyGo cs keys acc = .ok r) : (r.map Prod.fst).Nodup := by
  induction keys generalizing acc with
  | nil =>
    simp only [filterBuggyGo] at h
    injection h with h
    rw [← h]
    exact hn
  | cons k rest ih =>
    simp only [filterBuggyGo] at h
    cases hk : k.toList with
    | nil => rw [hk] at h; exact nomatch h
    | cons c0 t1 =>
      cases t1 with
      | nil => rw [hk] at h; exact nomatch h
      | cons c1 t2 =>
        cases t2 with
        | nil =>
          rw [hk] at h
          simp only [] at h
          by_cases hmem : String.singleton c0 ∈ cs
          · rw [if_pos hmem] at h
            exact ih _ (nodup_keys_aupsert _ _ _ hn) h
          · rw [if_neg hmem] at h
            exact ih _ hn h
        | cons c2 t3 => rw [hk] at h; exact nomatch h

theorem fetchAndFilter_nodup (cfg : Config) (acode : String) (a : RAccount)
    (hm : metersNodup a) (fm : PDict MeterVal)
    (h : fetchAndFilter cfg acode a.metersRes = .ok fm) :
    (fm.map Prod.fst).Nodup := by
  unfold fetchAndFilter at h
  cases hmr : a.metersRes with
  | error u => rw [hmr] at h; exact nomatch h
  | ok ms =>
    rw [hmr] at h
    simp only [] at h
    have hms : (ms.map Prod.fst).Nodup := by
      unfold metersNodup at hm
      rw [hmr] at hm
      exact hm
    cases hcf : cfg.accounts_filter with
    | none =>
      rw [hcf] at h
      simp only [] at h
      injection h with h
      rw [← h, metersAsVals_keys]
      exact hms
    | some l =>
      rw [hcf] at h
      simp only [] at h
      by_cases hl : l.isEmpty
      · rw [if_pos hl] at h
        injection h with h
        rw [← h, metersAsVals_keys]
        exact hms
      · rw [if_neg hl] at h
        cases hal : alookup l acode with
        | none => rw [hal] at h; exact nomatch h
        | some f =>
          rw [hal] at h
          cases f with
          | tru =>
            simp only [] at h
            injection h with h
            rw [← h, metersAsVals_keys]
            exact hms
          | codes cs =>
            simp only [] at h
            cases hfb : filterMetersCode cs ms with
            | error e => rw [hfb] at h; exact nomatch h
            | ok r =>
              rw [hfb] at h
              injection h with h
              rw [← h]
              exact filterBuggyGo_nodup cs (ms.map Prod.fst) [] List.nodup_nil r hfb

theorem fetchAndFilter_ok_not_perror (cfg : Config) (acode : String) (ms : PDict Meter) :
    fetchAndFilter cfg acode (.ok ms) ≠ .perror := by
  intro h
  unfold fetchAndFilter at h
  simp only [] at h
  cases hcf : cfg.accounts_filter with
  | none => rw [hcf] at h; exact nomatch h
  | some l =>
    rw [hcf] at h
    simp only [] at h
    by_cases hl : l.isEmpty
    · rw [if_pos hl] at h
      exact nomatch h
    · rw [if_neg hl] at h
      cases hal : alookup l acode with
      | none => rw [hal] at h; exact nomatch h
      | some f =>
        rw [hal] at h
        cases f with
        | tru => exact nomatch h
        | codes cs =>
          simp only [] at h
          cases hfb : filterMetersCode cs ms with
          | error e => rw [hfb] at h; exact nomatch h
          | ok r => rw [hfb] at h; exact nomatch h

/-! ## finishA component lemmas -/

theorem finishA_comp (cfg : Config) (acode : String) (ires : Except Unit (Option Invoice))
    (e : AccountEntity) (acc : LoopAcc) (e2 : AccountEntity) (acc2 : LoopAcc)
    (heq : finishA cfg acode ires false e acc = writeback acode false e2 acc2)
    (hee : e2 = e) (hce : acc2.ce = acc.ce) (hna : acc2.na = acc.na)
    (hnm : acc2.nm = acc.nm) (hni : acc2.ni = acc.ni) (hctr : acc2.ctr = acc.ctr)
    (he : alookup acc.ce acode = some e) :
    (finishA cfg acode ires false e acc).ce = acc.ce ∧
    (finishA cfg acode ires false e acc).na = acc.na ∧
    (finishA cfg acode ires false e acc).nm = acc.nm ∧
    (finishA cfg acode ires false e acc).ni = acc.ni ∧
    (finishA cfg acode ires false e acc).ctr = acc.ctr := by
  rw [heq, hee]
  refine ⟨?_, ?_, ?_, ?_, ?_⟩
  · rw [writeback_ce_false, hce]
    exact aupsert_self _ _ _ he
  · rw [writeback_na_false, hna]
  · rw [writeback_nm, hnm]
  · rw [writeback_ni, hni]
  · rw [writeback_ctr, hctr]

theorem finishA_fixpoint (cfg : Config) (acode : String) (ires : Except Unit (Option Invoice))
    (e : AccountEntity) (acc : LoopAcc)
    (hio : invoiceOk cfg acode ires e)
    (he : alookup acc.ce acode = some e) :
    (finishA cfg acode ires false e acc).ce = acc.ce ∧
    (finishA cfg acode ires false e acc).na = acc.na ∧
    (finishA cfg acode ires false e acc).nm = acc.nm ∧
    (finishA cfg acode ires false e acc).ni = acc.ni ∧
    (finishA cfg acode ires false e acc).ctr = acc.ctr := by
  by_cases hskip : invoiceSkip cfg.invoices_filter acode = true
  · exact finishA_comp cfg acode ires e acc e _
      (finishA_skip cfg acode ires false e acc hskip) rfl rfl rfl rfl rfl rfl he
  · rw [Bool.not_eq_true] at hskip
    cases ires with
    | error u =>
      exact finishA_comp cfg acode _ e acc e _
        (finishA_err cfg acode u false e acc hskip) rfl rfl rfl rfl rfl rfl he
    | ok oinv =>
      cases oinv with
      | none =>
        exact finishA_comp cfg acode _ e acc e _
          (finishA_oknone cfg acode false e acc hskip) rfl rfl rfl rfl rfl rfl he
      | some inv =>
        have hx := hio hskip
        rcases hx with ⟨ie0, hie0, hid0⟩
        have heq := finishA_oldinv cfg acode inv ie0 false e acc hskip hie0
        rw [if_pos hid0] at heq
        exact finishA_comp cfg acode _ e acc e _ heq rfl rfl rfl rfl rfl rfl he

theorem finishA_ce_ne (cfg : Config) (acode : String) (ires : Except Unit (Option Invoice))
    (isNew : Bool) (e : AccountEntity) (acc : LoopAcc) (k : String) (hk : k ≠ acode) :
    alookup (finishA cfg acode ires isNew e acc).ce k = alookup acc.ce k := by
  rcases finishA_shape cfg acode ires isNew e acc with ⟨e2, acc2, heq, _, _, _, hce, _⟩
  rw [heq, writeback_ce_ne _ _ _ _ _ hk, hce]

theorem finishA_na_ne (cfg : Config) (acode : String) (ires : Except Unit (Option Invoice))
    (isNew : Bool) (e : AccountEntity) (acc : LoopAcc) (k : String) (hk : k ≠ acode) :
    alookup (finishA cfg acode ires isNew e acc).na k = alookup acc.na k := by
  rcases finishA_shape cfg acode ires isNew e acc with ⟨e2, acc2, heq, _, _, _, _, hna⟩
  rw [heq, writeback_na_ne _ _ _ _ _ hk, hna]

theorem finishA_na_shape (cfg : Config) (acode : String) (ires : Except Unit (Option Invoice))
    (isNew : Bool) (e : AccountEntity) (acc : LoopAcc) :
    (finishA cfg acode ires isNew e acc).na = acc.na ∨
      ∃ e2, (finishA cfg acode ires isNew e acc).na = aupsert acc.na acode e2 := by
  rcases finishA_shape cfg acode ires isNew e acc with ⟨e2, acc2, heq, _, _, _, _, hna⟩
  cases isNew
  · left
    rw [heq, writeback_na_false, hna]
  · right
    exact ⟨e2, by rw [heq, writeback_na_true, hna]⟩

theorem finishA_log (cfg : Config) (acode : String) (ires : Except Unit (Option Invoice))
    (isNew : Bool) (e : AccountEntity) (acc : LoopAcc) :
    (finishA cfg acode ires isNew e acc).log.accountsProcessed = acc.log.accountsProcessed ∧
    (finishA cfg acode ires isNew e acc).log.meterErrors = acc.log.meterErrors ∧
    (finishA cfg acode ires isNew e acc).log.invoiceStage = acc.log.invoiceStage ++ [acode] ∧
    (finishA cfg acode ires isNew e acc).log.invoiceFetches = acc.log.invoiceFetches ++
      (if invoiceSkip cfg.invoices_filter acode then [] else [acode]) := by
  by_cases hskip : invoiceSkip cfg.invoices_filter acode = true
  · rw [finishA_skip cfg acode ires isNew e acc hskip, writeback_log]
    refine ⟨rfl, rfl, rfl, ?_⟩
    rw [if_pos hskip]
    exact (List.append_nil _).symm
  · rw [Bool.not_eq_true] at hskip
    have hwf : (if invoiceSkip cfg.invoices_filter acode then ([] : List String) else [acode]) = [acode] := by
      rw [hskip]
      rfl
    cases ires with
    | error u =>
      rw [finishA_err cfg acode u isNew e acc hskip, writeback_log, hwf]
      exact ⟨rfl, rfl, rfl, rfl⟩
    | ok oinv =>
      cases oinv with
      | none =>
        rw [finishA_oknone cfg acode isNew e acc hskip, writeback_log, hwf]
        exact ⟨rfl, rfl, rfl, rfl⟩
      | some inv =>
        cases hie : e.invoice_entity with
        | none =>
          rw [finishA_newinv cfg acode inv isNew e acc hskip hie, writeback_log, hwf]
          exact ⟨rfl, rfl, rfl, rfl⟩
        | some ie =>
          by_cases hid : ie.invoice.invoice_id = inv.invoice_id
          · rw [finishA_oldinv cfg acode inv ie isNew e acc hskip hie, if_pos hid,
              writeback_log, hwf]
            exact ⟨rfl, rfl, rfl, rfl⟩
          · rw [finishA_oldinv cfg acode inv ie isNew e acc hskip hie, if_neg hid,
              writeback_log, hwf]
            exact ⟨rfl, rfl, rfl, rfl⟩

theorem processAccount_ok_shape (cfg : Config) (p : String × RAccount) (acc acc2 : LoopAcc)
    (h : processAccount cfg p acc = .ok acc2) :
    ∃ (isNew : Bool) (e : AccountEntity) (accB : LoopAcc),
      acc2 = finishA cfg p.1 p.2.invoiceRes isNew e accB ∧
      (∀ k, k ≠ p.1 → alookup accB.ce k = alookup acc.ce k) ∧
      accB.na = acc.na ∧
      accB.log.accountsProcessed = acc.log.accountsProcessed ++ [p.1] ∧
      accB.log.invoiceStage = acc.log.invoiceStage ∧
      accB.log.invoiceFetches = acc.log.invoiceFetches ∧
      accB.log.meterErrors = acc.log.meterErrors ++
        (match p.2.metersRes with | .error _ => [p.1] | .ok _ => []) := by
  cases hce : alookup acc.ce p.1 with
  | none =>
    rw [processAccount_new cfg p acc hce] at h
    cases hmr : p.2.metersRes with
    | error u =>
      have hff : fetchAndFilter cfg p.1 p.2.metersRes = .perror := by
        rw [hmr]
        rfl
      rw [processAccount2_perror _ _ _ _ _ _ hff] at h
      injection h with h
      refine ⟨true, _, _, h.symm, ?_, rfl, rfl, rfl, rfl, ?_⟩
      · intro k hk
        rfl
      · rfl
    | ok ms =>
      cases hff : fetchAndFilter cfg p.1 p.2.metersRes with
      | crash pe =>
        rw [processAccount2_crash _ _ _ _ _ _ _ hff] at h
        exact nomatch h
      | perror =>
        rw [hmr] at hff
        exact absurd hff (fetchAndFilter_ok_not_perror cfg p.1 ms)
      | ok fm =>
        rw [processAccount2_okm _ _ _ _ _ _ fm hff] at h
        injection h with h
        refine ⟨true, _, _, h.symm, ?_, rfl, rfl, rfl, rfl, ?_⟩
        · intro k hk
          rfl
        · exact (List.append_nil _).symm
  | some x =>
    rw [processAccount_old cfg p acc x hce] at h
    cases hmr : p.2.metersRes with
    | error u =>
      have hff : fetchAndFilter cfg p.1 p.2.metersRes = .perror := by
        rw [hmr]
        rfl
      rw [processAccount2_perror _ _ _ _ _ _ hff] at h
      injection h with h
      refine ⟨false, _, _, h.symm, ?_, rfl, rfl, rfl, rfl, ?_⟩
      · intro k hk
        exact alookup_aupsert_ne _ _ _ _ hk
      · rfl
    | ok ms =>
      cases hff : fetchAndFilter cfg p.1 p.2.metersRes with
      | crash pe =>
        rw [processAccount2_crash _ _ _ _ _ _ _ hff] at h
        exact nomatch h
      | perror =>
        rw [hmr] at hff
        exact absurd hff (fetchAndFilter_ok_not_perror cfg p.1 ms)
      | ok fm =>
        rw [processAccount2_okm _ _ _ _ _ _ fm hff] at h
        injection h with h
        refine ⟨false, _, _, h.symm, ?_, rfl, rfl, rfl, rfl, ?_⟩
        · intro k hk
          exact alookup_aupsert_ne _ _ _ _ hk
        · exact (List.append_nil _).symm

theorem processAccount_ce_na_ne (cfg : Config) (p : String × RAccount)
    (acc acc2 : LoopAcc) (h : processAccount cfg p acc = .ok acc2)
    (k : String) (hk : k ≠ p.1) :
    alookup acc2.ce k = alookup acc.ce k ∧ alookup acc2.na k = alookup acc.na k := by
  rcases processAccount_ok_shape cfg p acc acc2 h with
    ⟨isNew, e, accB, heq, hloc, hna, _, _, _, _⟩
  constructor
  · rw [heq, finishA_ce_ne _ _ _ _ _ _ _ hk, hloc k hk]
  · rw [heq, finishA_na_ne _ _ _ _ _ _ _ hk, hna]

theorem processAccount_na_shape (cfg : Config) (p : String × RAccount)
    (acc acc2 : LoopAcc) (h : processAccount cfg p acc = .ok acc2) :
    acc2.na = acc.na ∨ ∃ e2, acc2.na = aupsert acc.na p.1 e2 := by
  rcases processAccount_ok_shape cfg p acc acc2 h with
    ⟨isNew, e, accB, heq, _, hna, _, _, _, _⟩
  rcases finishA_na_shape cfg p.1 p.2.invoiceRes isNew e accB with h1 | ⟨e2, h1⟩
  · left
    rw [heq, h1, hna]
  · right
    exact ⟨e2, by rw [heq, h1, hna]⟩

theorem processAccount_log (cfg : Config) (p : String × RAccount)
    (acc acc2 : LoopAcc) (h : processAccount cfg p acc = .ok acc2) :
    acc2.log.accountsProcessed = acc.log.accountsProcessed ++ [p.1] ∧
    acc2.log.meterErrors = acc.log.meterErrors ++
      (match p.2.metersRes with | .error _ => [p.1] | .ok _ => []) ∧
    acc2.log.invoiceStage = acc.log.invoiceStage ++ [p.1] ∧
    acc2.log.invoiceFetches = acc.log.invoiceFetches ++
      (if invoiceSkip cfg.invoices_filter p.1 then [] else [p.1]) := by
  rcases processAccount_ok_shape cfg p acc acc2 h with
    ⟨isNew, e, accB, heq, _, _, hP, hS, hF, hE⟩
  have hfl := finishA_log cfg p.1 p.2.invoiceRes isNew e accB
  refine ⟨?_, ?_, ?_, ?_⟩
  · rw [heq, hfl.1, hP]
  · rw [heq, hfl.2.1, hE]
  · rw [heq, hfl.2.2.1, hS]
  · rw [heq, hfl.2.2.2, hF]

theorem processAccount_ok_no_crash (cfg : Config) (p : String × RAccount)
    (acc acc2 : LoopAcc) (h : processAccount cfg p acc = .ok acc2) :
    (fetchAndFilter cfg p.1 p.2.metersRes).isCrash = false := by
  cases hff : fetchAndFilter cfg p.1 p.2.metersRes with
  | crash pe =>
    exfalso
    cases hce : alookup acc.ce p.1 with
    | none =>
      rw [processAccount_new cfg p acc hce, processAccount2_crash _ _ _ _ _ _ _ hff] at h
      exact nomatch h
    | some x =>
      rw [processAccount_old cfg p acc x hce, processAccount2_crash _ _ _ _ _ _ _ hff] at h
      exact nomatch h
  | perror => rfl
  | ok fm => rfl

theorem processAccount_ok_of_no_crash (cfg : Config) (p : String × RAccount)
    (acc : LoopAcc) (hnc : (fetchAndFilter cfg p.1 p.2.metersRes).isCrash = false) :
    ∃ acc2, processAccount cfg p acc = .ok acc2 := by
  cases hff : fetchAndFilter cfg p.1 p.2.metersRes with
  | crash pe =>
    rw [hff] at hnc
    exact nomatch hnc
  | perror =>
    cases hce : alookup acc.ce p.1 with
    | none =>
      rw [processAccount_new cfg p acc hce, processAccount2_perror _ _ _ _ _ _ hff]
      exact ⟨_, rfl⟩
    | some x =>
      rw [processAccount_old cfg p acc x hce, processAccount2_perror _ _ _ _ _ _ hff]
      exact ⟨_, rfl⟩
  | ok fm =>
    cases hce : alookup acc.ce p.1 with
    | none =>
      rw [processAccount_new cfg p acc hce, processAccount2_okm _ _ _ _ _ _ fm hff]
      exact ⟨_, rfl⟩
    | some x =>
      rw [processAccount_old cfg p acc x hce, processAccount2_okm _ _ _ _ _ _ fm hff]
      exact ⟨_, rfl⟩

theorem processAccount2_establish (cfg : Config) (acode : String) (acct : RAccount)
    (e0 : AccountEntity) (isNew : Bool) (accB acc2 : LoopAcc)
    (hmn : metersNodup acct)
    (hacct : e0.account = acct)
    (hnaB : alookup accB.na acode = none)
    (h : processAccount2 cfg acode acct e0 isNew accB = .ok acc2) :
    ∃ e, mergedLookup acc2 acode = some e ∧ consistent cfg acode acct e := by
  cases hff : fetchAndFilter cfg acode acct.metersRes with
  | crash pe =>
    rw [processAccount2_crash _ _ _ _ _ _ _ hff] at h
    exact nomatch h
  | perror =>
    rw [processAccount2_perror _ _ _ _ _ _ hff] at h
    injection h with h
    rcases finishA_shape cfg acode acct.invoiceRes isNew e0
        { accB with log := { accB.log with meterErrors := accB.log.meterErrors ++ [acode] } }
      with ⟨e2, acc3, heq, hacc2, hme2, hio2, hce3, hna3⟩
    rw [← h, heq]
    refine ⟨e2, ?_, ?_, ?_, hio2⟩
    · apply writeback_merged
      rw [hna3]
      exact hnaB
    · rw [hacc2, hacct]
    · intro fm hfm
      rw [hff] at hfm
      exact nomatch hfm
  | ok fm =>
    rw [processAccount2_okm _ _ _ _ _ _ fm hff] at h
    injection h with h
    rcases finishA_shape cfg acode acct.invoiceRes isNew
        { e0 with meter_entities := some (processMeters fm e0.meter_entities accB.ctr).me }
        { accB with
          nm := amerge accB.nm (processMeters fm e0.meter_entities accB.ctr).nm,
          ctr := (processMeters fm e0.meter_entities accB.ctr).ctr,
          log := { accB.log with
            refreshTasks := accB.log.refreshTasks ++ (processMeters fm e0.meter_entities accB.ctr).refresh,
            removeTasks := accB.log.removeTasks ++ (processMeters fm e0.meter_entities accB.ctr).removed,
            republishes := accB.log.republishes ++ (processMeters fm e0.meter_entities accB.ctr).republish } }
      with ⟨e2, acc3, heq, hacc2, hme2, hio2, hce3, hna3⟩
    rw [← h, heq]
    refine ⟨e2, ?_, ?_, ?_, hio2⟩
    · apply writeback_merged
      rw [hna3]
      exact hnaB
    · rw [hacc2]
      exact hacct
    · intro fm2 hfm2
      rw [hff] at hfm2
      injection hfm2 with hfm2
      subst hfm2
      refine ⟨(processMeters fm e0.meter_entities accB.ctr).me, ?_, ?_⟩
      · rw [hme2]
      · exact processMeters_establish fm e0.meter_entities accB.ctr
          (fetchAndFilter_nodup cfg acode acct hmn fm hff)

theorem processAccount_establish (cfg : Config) (p : String × RAccount)
    (acc acc2 : LoopAcc) (hmn : metersNodup p.2)
    (hna : alookup acc.na p.1 = none)
    (h : processAccount cfg p acc = .ok acc2) :
    ∃ e, mergedLookup acc2 p.1 = some e ∧ consistent cfg p.1 p.2 e := by
  cases hce : alookup acc.ce p.1 with
  | none =>
    rw [processAccount_new cfg p acc hce] at h
    exact processAccount2_establish cfg p.1 p.2 ⟨acc.ctr, p.2, none, none⟩ true
      { acc with ctr := acc.ctr + 1, log := logNewAcct acc.log p.1 acc.ctr } acc2
      hmn rfl hna h
  | some x =>
    rw [processAccount_old cfg p acc x hce] at h
    exact processAccount2_establish cfg p.1 p.2 { x with account := p.2 } false
      { acc with
        ce := aupsert acc.ce p.1 { x with account := p.2 },
        log := logOldAcct acc.log p.1 x.eid } acc2
      hmn rfl hna h

theorem processAccount2_fixpoint (cfg : Config) (acode : String) (acct : RAccount)
    (e : AccountEntity) (acc : LoopAcc)
    (hmc : ∀ fm, fetchAndFilter cfg acode acct.metersRes = .ok fm →
        ∃ me, e.meter_entities = some me ∧ metersFix fm me)
    (hio : invoiceOk cfg acode acct.invoiceRes e)
    (he : alookup acc.ce acode = some e)
    (hnc : (fetchAndFilter cfg acode acct.metersRes).isCrash = false) :
    ∃ acc2, processAccount2 cfg acode acct e false acc = .ok acc2 ∧
      acc2.ce = acc.ce ∧ acc2.na = acc.na ∧ acc2.nm = acc.nm ∧
      acc2.ni = acc.ni ∧ acc2.ctr = acc.ctr := by
  cases hff : fetchAndFilter cfg acode acct.metersRes with
  | crash pe =>
    rw [hff] at hnc
    exact nomatch hnc
  | perror =>
    rw [processAccount2_perror _ _ _ _ _ _ hff]
    have hfx := finishA_fixpoint cfg acode acct.invoiceRes e
      { acc with log := { acc.log with meterErrors := acc.log.meterErrors ++ [acode] } }
      hio he
    exact ⟨_, rfl, hfx.1, hfx.2.1, hfx.2.2.1, hfx.2.2.2.1, hfx.2.2.2.2⟩
  | ok fm =>
    rw [processAccount2_okm _ _ _ _ _ _ fm hff]
    rcases hmc fm hff with ⟨me, hme, hfme⟩
    rw [hme]
    have hs := processMeters_fixpoint fm me acc.ctr hfme
    rw [hs.1, hs.2.1, hs.2.2.1, hs.2.2.2.1, hs.2.2.2.2, amerge_nil,
      accountEntity_me_self e (some me) hme]
    have hfx := finishA_fixpoint cfg acode acct.invoiceRes e
      { acc with
        nm := acc.nm,
        ctr := acc.ctr,
        log := { acc.log with
          refreshTasks := acc.log.refreshTasks ++ [],
          removeTasks := acc.log.removeTasks ++ [],
          republishes := acc.log.republishes ++ (processMeters fm (some me) acc.ctr).republish } }
      hio he
    exact ⟨_, rfl, hfx.1, hfx.2.1, hfx.2.2.1, hfx.2.2.2.1, hfx.2.2.2.2⟩

theorem processAccount_fixpoint (cfg : Config) (p : String × RAccount)
    (acc : LoopAcc) (e : AccountEntity)
    (he : alookup acc.ce p.1 = some e)
    (hc : consistent cfg p.1 p.2 e)
    (hnc : (fetchAndFilter cfg p.1 p.2.metersRes).isCrash = false) :
    ∃ acc2, processAccount cfg p acc = .ok acc2 ∧
      acc2.ce = acc.ce ∧ acc2.na = acc.na ∧ acc2.nm = acc.nm ∧
      acc2.ni = acc.ni ∧ acc2.ctr = acc.ctr := by
  rw [processAccount_old cfg p acc e he,
    accountEntity_account_self e p.2 hc.1, aupsert_self _ _ _ he]
  rcases processAccount2_fixpoint cfg p.1 p.2 e
      { acc with ce := acc.ce, log := logOldAcct acc.log p.1 e.eid }
      hc.2.1 hc.2.2 he hnc
    with ⟨acc2, hpa, c1, c2, c3, c4, c5⟩
  exact ⟨acc2, hpa, c1, c2, c3, c4, c5⟩

/-! ## Lemmas about the account loop -/

theorem loop_no_crash (cfg : Config) (l : List (String × RAccount)) (acc acc2 : LoopAcc)
    (h : loopAccounts cfg l acc = .ok acc2) :
    ∀ p ∈ l, (fetchAndFilter cfg p.1 p.2.metersRes).isCrash = false := by
  induction l generalizing acc with
  | nil =>
    intro p hp
    exact absurd hp (List.not_mem_nil p)
  | cons q rest ih =>
    intro p hp
    cases hpa : processAccount cfg q acc with
    | error e2 =>
      simp only [loopAccounts, hpa] at h
      exact nomatch h
    | ok acc1 =>
      simp only [loopAccounts, hpa] at h
      rcases List.mem_cons.mp hp with h1 | h1
      · rw [h1]
        exact processAccount_ok_no_crash cfg q acc acc1 hpa
      · exact ih acc1 h p h1

theorem loop_ok_of_no_crash (cfg : Config) (l : List (String × RAccount)) (acc : LoopAcc)
    (hnc : ∀ p ∈ l, (fetchAndFilter cfg p.1 p.2.metersRes).isCrash = false) :
    ∃ acc2, loopAccounts cfg l acc = .ok acc2 := by
  induction l generalizing acc with
  | nil => exact ⟨acc, rfl⟩
  | cons q rest ih =>
    rcases processAccount_ok_of_no_crash cfg q acc (hnc q (List.mem_cons_self _ _)) with ⟨acc1, hpa⟩
    rcases ih acc1 (fun p hp => hnc p (List.mem_cons_of_mem _ hp)) with ⟨acc2, hl⟩
    refine ⟨acc2, ?_⟩
    simp only [loopAccounts, hpa]
    exact hl

theorem loop_locality (cfg : Config) (l : List (String × RAccount)) (acc acc2 : LoopAcc)
    (h : loopAccounts cfg l acc = .ok acc2) (k : String) (hk : k ∉ l.map Prod.fst) :
    alookup acc2.ce k = alookup acc.ce k ∧ alookup acc2.na k = alookup acc.na k := by
  induction l generalizing acc with
  | nil =>
    simp only [loopAccounts] at h
    injection h with h
    rw [← h]
    exact ⟨rfl, rfl⟩
  | cons q rest ih =>
    have hkq : k ≠ q.1 := fun hc => hk (by simp [hc])
    have hkrest : k ∉ rest.map Prod.fst := fun hc => hk (by simp [hc])
    cases hpa : processAccount cfg q acc with
    | error e2 =>
      simp only [loopAccounts, hpa] at h
      exact nomatch h
    | ok acc1 =>
      simp only [loopAccounts, hpa] at h
      have h1 := processAccount_ce_na_ne cfg q acc acc1 hpa k hkq
      have h2 := ih acc1 h hkrest
      exact ⟨h2.1.trans h1.1, h2.2.trans h1.2⟩

theorem loop_na_nodup (cfg : Config) (l : List (String × RAccount)) (acc acc2 : LoopAcc)
    (h : loopAccounts cfg l acc = .ok acc2) (hn : (acc.na.map Prod.fst).Nodup) :
    (acc2.na.map Prod.fst).Nodup := by
  induction l generalizing acc with
  | nil =>
    simp only [loopAccounts] at h
    injection h with h
    rw [← h]
    exact hn
  | cons q rest ih =>
    cases hpa : processAccount cfg q acc with
    | error e2 =>
      simp only [loopAccounts, hpa] at h
      exact nomatch h
    | ok acc1 =>
      simp only [loopAccounts, hpa] at h
      have hn1 : (acc1.na.map Prod.fst).Nodup := by
        rcases processAccount_na_shape cfg q acc acc1 hpa with h1 | ⟨e2, h1⟩
        · rw [h1]
          exact hn
        · rw [h1]
          exact nodup_keys_aupsert _ _ _ hn
      exact ih acc1 h hn1

theorem loop_log_mono (cfg : Config) (l : List (String × RAccount)) (acc acc2 : LoopAcc)
    (h : loopAccounts cfg l acc = .ok acc2) :
    (∀ x ∈ acc.log.accountsProcessed, x ∈ acc2.log.accountsProcessed) ∧
    (∀ x ∈ acc.log.meterErrors, x ∈ acc2.log.meterErrors) ∧
    (∀ x ∈ acc.log.invoiceStage, x ∈ acc2.log.invoiceStage) ∧
    (∀ x ∈ acc.log.invoiceFetches, x ∈ acc2.log.invoiceFetches) := by
  induction l generalizing acc with
  | nil =>
    simp only [loopAccounts] at h
    injection h with h
    rw [← h]
    exact ⟨fun x hx => hx, fun x hx => hx, fun x hx => hx, fun x hx => hx⟩
  | cons q rest ih =>
    cases hpa : processAccount cfg q acc with
    | error e2 =>
      simp only [loopAccounts, hpa] at h
      exact nomatch h
    | ok acc1 =>
      simp only [loopAccounts, hpa] at h
      have hlog := processAccount_log cfg q acc acc1 hpa
      have hrest := ih acc1 h
      refine ⟨?_, ?_, ?_, ?_⟩
      · intro x hx
        exact hrest.1 x (by rw [hlog.1]; exact List.mem_append_left _ hx)
      · intro x hx
        exact hrest.2.1 x (by rw [hlog.2.1]; exact List.mem_append_left _ hx)
      · intro x hx
        exact hrest.2.2.1 x (by rw [hlog.2.2.1]; exact List.mem_append_left _ hx)
      · intro x hx
        exact hrest.2.2.2 x (by rw [hlog.2.2.2]; exact List.mem_append_left _ hx)

theorem loop_contrib (cfg : Config) (l : List (String × RAccount)) (acc acc2 : LoopAcc)
    (h : loopAccounts cfg l acc = .ok acc2) :
    ∀ p ∈ l, p.1 ∈ acc2.log.accountsProcessed ∧
      (∀ u, p.2.metersRes = .error u → p.1 ∈ acc2.log.meterErrors) ∧
      p.1 ∈ acc2.log.invoiceStage ∧
      (invoiceSkip cfg.invoices_filter p.1 = false → p.1 ∈ acc2.log.invoiceFetches) := by
  induction l generalizing acc with
  | nil =>
    intro p hp
    exact absurd hp (List.not_mem_nil p)
  | cons q rest ih =>
    intro p hp
    cases hpa : processAccount cfg q acc with
    | error e2 =>
      simp only [loopAccounts, hpa] at h
      exact nomatch h
    | ok acc1 =>
      simp only [loopAccounts, hpa] at h
      rcases List.mem_cons.mp hp with h1 | h1
      · subst h1
        have hlog := processAccount_log cfg p acc acc1 hpa
        have hmono := loop_log_mono cfg rest acc1 acc2 h
        refine ⟨?_, ?_, ?_, ?_⟩
        · exact hmono.1 p.1 (by rw [hlog.1]; exact List.mem_append_right _ (by simp))
        · intro u hu
          refine hmono.2.1 p.1 ?_
          rw [hlog.2.1, hu]
          exact List.mem_append_right _ (by simp)
        · exact hmono.2.2.1 p.1 (by rw [hlog.2.2.1]; exact List.mem_append_right _ (by simp))
        · intro hskip
          refine hmono.2.2.2 p.1 ?_
          rw [hlog.2.2.2, hskip]
          exact List.mem_append_right _ (by simp)
      · exact ih acc1 h p h1

theorem loop_establish (cfg : Config) (l : List (String × RAccount)) (acc acc2 : LoopAcc)
    (hnd : (l.map Prod.fst).Nodup)
    (hmn : ∀ p ∈ l, metersNodup p.2)
    (hna : ∀ p ∈ l, alookup acc.na p.1 = none)
    (h : loopAccounts cfg l acc = .ok acc2) :
    ∀ p ∈ l, ∃ e, mergedLookup acc2 p.1 = some e ∧ consistent cfg p.1 p.2 e := by
  induction l generalizing acc with
  | nil =>
    intro p hp
    exact absurd hp (List.not_mem_nil p)
  | cons q rest ih =>
    intro p hp
    simp only [List.map_cons, List.nodup_cons] at hnd
    obtain ⟨hq1, hndrest⟩ := hnd
    cases hpa : processAccount cfg q acc with
    | error e2 =>
      simp only [loopAccounts, hpa] at h
      exact nomatch h
    | ok acc1 =>
      simp only [loopAccounts, hpa] at h
      rcases List.mem_cons.mp hp with h1 | h1
      · subst h1
        rcases processAccount_establish cfg p acc acc1 (hmn p hp)
            (hna p (List.mem_cons_self _ _)) hpa with ⟨e, hme, hcons⟩
        have hploc := loop_locality cfg rest acc1 acc2 h p.1 hq1
        refine ⟨e, ?_, hcons⟩
        unfold mergedLookup at hme ⊢
        rw [hploc.1, hploc.2]
        exact hme
      · refine ih acc1 hndrest (fun r hr => hmn r (List.mem_cons_of_mem _ hr)) ?_ h p h1
        intro r hr
        have hrq : r.1 ≠ q.1 := by
          intro hc
          exact hq1 (hc ▸ List.mem_map.mpr ⟨r, hr, rfl⟩)
        rw [(processAccount_ce_na_ne cfg q acc acc1 hpa r.1 hrq).2]
        exact hna r (List.mem_cons_of_mem _ hr)

theorem loop_fixpoint (cfg : Config) (l : List (String × RAccount)) (acc : LoopAcc)
    (hcons : ∀ p ∈ l, ∃ e, alookup acc.ce p.1 = some e ∧ consistent cfg p.1 p.2 e)
    (hnc : ∀ p ∈ l, (fetchAndFilter cfg p.1 p.2.metersRes).isCrash = false) :
    ∃ acc2, loopAccounts cfg l acc = .ok acc2 ∧ acc2.ce = acc.ce ∧ acc2.na = acc.na ∧
      acc2.nm = acc.nm ∧ acc2.ni = acc.ni ∧ acc2.ctr = acc.ctr := by
  induction l generalizing acc with
  | nil => exact ⟨acc, rfl, rfl, rfl, rfl, rfl, rfl⟩
  | cons q rest ih =>
    rcases hcons q (List.mem_cons_self _ _) with ⟨e, he, hc⟩
    rcases processAccount_fixpoint cfg q acc e he hc (hnc q (List.mem_cons_self _ _)) with
      ⟨acc1, hpa, c1, c2, c3, c4, c5⟩
    have hcons1 : ∀ p ∈ rest, ∃ e2, alookup acc1.ce p.1 = some e2 ∧ consistent cfg p.1 p.2 e2 := by
      intro p hp
      rcases hcons p (List.mem_cons_of_mem _ hp) with ⟨e2, he2, hc2⟩
      exact ⟨e2, by rw [c1]; exact he2, hc2⟩
    rcases ih acc1 hcons1 (fun p hp => hnc p (List.mem_cons_of_mem _ hp)) with
      ⟨acc2, hl, d1, d2, d3, d4, d5⟩
    refine ⟨acc2, ?_, d1.trans c1, d2.trans c2, d3.trans c3, d4.trans c4, d5.trans c5⟩
    simp only [loopAccounts, hpa]
    exact hl

/-! ## Cycle-level lemmas -/

theorem entity_updater_auth (cfg : Config) (api : ApiState) (now : Nat) (beh : Behavior)
    (st : PState) (hs : sessionOk cfg api now beh = false) :
    entity_updater cfg api now beh st = ⟨.authFailed, st, emptyLog⟩ := by
  unfold entity_updater
  rw [if_neg (by simp [hs])]

theorem entity_updater_list (cfg : Config) (api : ApiState) (now : Nat) (beh : Behavior)
    (st : PState) (u : Unit) (hs : sessionOk cfg api now beh = true)
    (hacc : beh.accountsRes = .error u) :
    entity_updater cfg api now beh st = ⟨.listFailed, st, emptyLog⟩ := by
  unfold entity_updater
  rw [if_pos hs, hacc]

theorem entity_updater_okrun (cfg : Config) (api : ApiState) (now : Nat) (beh : Behavior)
    (st : PState) (accs : PDict RAccount) (acc2 : LoopAcc)
    (hs : sessionOk cfg api now beh = true)
    (hacc : beh.accountsRes = .ok accs)
    (hloop : loopAccounts cfg accs
      ⟨st.created_entities.getD [], [], [], [], emptyLog, st.nextEid⟩ = .ok acc2) :
    entity_updater cfg api now beh st =
      ⟨.done acc2.na.length acc2.nm.length acc2.ni.length,
        ⟨some (amerge acc2.ce acc2.na), acc2.ctr⟩, acc2.log⟩ := by
  unfold entity_updater
  rw [if_pos hs, hacc]
  simp only [hloop]

theorem sessionOk_false_iff (cfg : Config) (api : ApiState) (now : Nat) (beh : Behavior) :
    sessionOk cfg api now beh = false ↔ session_establishment_fails cfg api now beh := by
  unfold sessionOk session_establishment_fails
  cases hl : api.is_logged_in <;>
    by_cases hto : api.logged_in_at + cfg.login_timeout ≤ now <;>
      cases hlo : beh.login_ok <;> cases hlg : beh.logout_ok <;> simp [hl, hto, hlo, hlg]

/-- All accounts of the listing are free of the uncaught filter exceptions of
lines 143/146 (`KeyError` / `ValueError`). -/
def noCrashAll (cfg : Config) (beh : Behavior) : Prop :=
  match beh.accountsRes with
  | .error _ => True
  | .ok accs => ∀ p ∈ accs, (fetchAndFilter cfg p.1 p.2.metersRes).isCrash = false

/-- The remote listing is a well-formed collection of Python dicts: account
codes are unique and each account's fetched meter codes are unique. -/
def remoteWellFormed (beh : Behavior) : Prop :=
  match beh.accountsRes with
  | .error _ => True
  | .ok accs => (accs.map Prod.fst).Nodup ∧ ∀ p ∈ accs, metersNodup p.2

/-- C2: running a cycle a second time against an unchanged remote state
(same provider behaviour) creates no new account, meter or invoice entities —
the second cycle returns `(0, 0, 0)` — and leaves the entire registry state
(including every entity's allocation identity) unchanged. -/
theorem C2_idempotent (cfg : Config) (api api2 : ApiState) (now now2 : Nat)
    (beh : Behavior) (st : PState) (a m i : Nat)
    (hwf : remoteWellFormed beh)
    (h1 : (entity_updater cfg api now beh st).result = .done a m i)
    (h2 : sessionOk cfg api2 now2 beh = true) :
    (entity_updater cfg api2 now2 beh (entity_updater cfg api now beh st).state).result =
      .done 0 0 0 ∧
    (entity_updater cfg api2 now2 beh (entity_updater cfg api now beh st).state).state =
      (entity_updater cfg api now beh st).state := by
  cases hs1 : sessionOk cfg api now beh with
  | false =>
    rw [entity_updater_auth cfg api now beh st hs1] at h1
    exact nomatch h1
  | true =>
    cases hacc : beh.accountsRes with
    | error u =>
      rw [entity_updater_list cfg api now beh st u hs1 hacc] at h1
      exact nomatch h1
    | ok accs =>
      cases hloop : loopAccounts cfg accs
          ⟨st.created_entities.getD [], [], [], [], emptyLog, st.nextEid⟩ with
      | error pe =>
        have hout := (by
          unfold entity_updater
          rw [if_pos hs1, hacc]
          simp only [hloop] :
          entity_updater cfg api now beh st =
            ⟨.crashed pe.1, ⟨some pe.2.ce, pe.2.ctr⟩, pe.2.log⟩)
        rw [hout] at h1
        exact nomatch h1
      | ok acc1 =>
        have hout1 := entity_updater_okrun cfg api now beh st accs acc1 hs1 hacc hloop
        unfold remoteWellFormed at hwf
        rw [hacc] at hwf
        have hnd := hwf.1
        have hmn := hwf.2
        have hnan : (acc1.na.map Prod.fst).Nodup :=
          loop_na_nodup cfg accs _ acc1 hloop List.nodup_nil
        have hest := loop_establish cfg accs
          ⟨st.created_entities.getD [], [], [], [], emptyLog, st.nextEid⟩ acc1 hnd hmn
          (fun p hp => rfl) hloop
        have hnc := loop_no_crash cfg accs _ acc1 hloop
        have hce1 : ∀ p ∈ accs, ∃ e,
            alookup (amerge acc1.ce acc1.na) p.1 = some e ∧ consistent cfg p.1 p.2 e := by
          intro p hp
          rcases hest p hp with ⟨e, hme, hcons⟩
          refine ⟨e, ?_, hcons⟩
          unfold mergedLookup at hme
          cases hna : alookup acc1.na p.1 with
          | none =>
            rw [hna] at hme
            rw [alookup_amerge_not_mem _ _ _ ((alookup_eq_none_iff _ _).mp hna)]
            exact hme
          | some v =>
            rw [hna] at hme
            rw [alookup_amerge_of_lookup _ _ _ _ hnan hna]
            exact hme
        rcases loop_fixpoint cfg accs
            ⟨amerge acc1.ce acc1.na, [], [], [], emptyLog, acc1.ctr⟩
            (fun p hp => hce1 p hp) hnc with ⟨acc2, hl2, d1, d2, d3, d4, d5⟩
        have hout2 := entity_updater_okrun cfg api2 now2 beh
          (entity_updater cfg api now beh st).state accs acc2 h2 hacc
          (by rw [hout1]; exact hl2)
        rw [hout2, hout1]
        constructor
        · show CycleResult.done acc2.na.length acc2.nm.length acc2.ni.length = .done 0 0 0
          rw [d2, d3, d4]
          rfl
        · show (⟨some (amerge acc2.ce acc2.na), acc2.ctr⟩ : PState) =
            ⟨some (amerge acc1.ce acc1.na), acc1.ctr⟩
          rw [d1, d2, d5]
          rfl

instance (a : RAccount) : Decidable (metersNodup a) := by
  unfold metersNodup
  cases a.metersRes with
  | error u => exact inferInstanceAs (Decidable True)
  | ok ms => exact inferInstanceAs (Decidable ((ms.map Prod.fst).Nodup))

instance (beh : Behavior) : Decidable (remoteWellFormed beh) := by
  unfold remoteWellFormed
  cases beh.accountsRes with
  | error u => exact inferInstanceAs (Decidable True)
  | ok accs =>
    exact inferInstanceAs (Decidable ((accs.map Prod.fst).Nodup ∧ ∀ p ∈ accs, metersNodup p.2))

instance (cfg : Config) (beh : Behavior) : Decidable (noCrashAll cfg beh) := by
  unfold noCrashAll
  cases beh.accountsRes with
  | error u => exact inferInstanceAs (Decidable True)
  | ok accs =>
    exact inferInstanceAs
      (Decidable (∀ p ∈ accs, (fetchAndFilter cfg p.1 p.2.metersRes).isCrash = false))

/-- C2 witness: one healthy account with one meter and one invoice — the
first cycle creates `(1, 1, 1)`, the second returns `(0, 0, 0)` with the
registry state identical. -/
theorem C2_witness :
    (remoteWellFormed behEx ∧
      (entity_updater cfgNoF apiEx 0 behEx st0).result = .done 1 1 1 ∧
      sessionOk cfgNoF apiEx 0 behEx = true) ∧
    ((entity_updater cfgNoF apiEx 0 behEx
        (entity_updater cfgNoF apiEx 0 behEx st0).state).result = .done 0 0 0 ∧
      (entity_updater cfgNoF apiEx 0 behEx
        (entity_updater cfgNoF apiEx 0 behEx st0).state).state =
        (entity_updater cfgNoF apiEx 0 behEx st0).state) :=
  ⟨⟨by decide, by decide, by decide⟩,
    C2_idempotent cfgNoF apiEx apiEx 0 0 behEx st0 1 1 1 (by decide) (by decide) (by decide)⟩

/-- C6: for every cycle whose session and account listing succeed and whose
accounts avoid the uncaught filter exceptions, an account X whose meter fetch
raises a provider error is isolated: its failure is logged, its invoice stage
is still reached (and its invoice fetched unless the invoice filter skips it),
every account in the listing is still processed, and the cycle still returns
its creation-count summary. -/
theorem C6_meter_failure_isolated (cfg : Config) (api : ApiState) (now : Nat)
    (beh : Behavior) (st : PState) (accs : PDict RAccount)
    (acodeX : String) (acctX : RAccount)
    (hs : sessionOk cfg api now beh = true)
    (hacc : beh.accountsRes = .ok accs)
    (hnc : ∀ p ∈ accs, (fetchAndFilter cfg p.1 p.2.metersRes).isCrash = false)
    (hx : (acodeX, acctX) ∈ accs)
    (hferr : acctX.metersRes = .error ()) :
    (∃ a m i, (entity_updater cfg api now beh st).result = .done a m i) ∧
    acodeX ∈ (entity_updater cfg api now beh st).log.meterErrors ∧
    acodeX ∈ (entity_updater cfg api now beh st).log.invoiceStage ∧
    (invoiceSkip cfg.invoices_filter acodeX = false →
      acodeX ∈ (entity_updater cfg api now beh st).log.invoiceFetches) ∧
    (∀ p ∈ accs, p.1 ∈ (entity_updater cfg api now beh st).log.accountsProcessed) := by
  rcases loop_ok_of_no_crash cfg accs
      ⟨st.created_entities.getD [], [], [], [], emptyLog, st.nextEid⟩ hnc with ⟨acc2, hloop⟩
  rw [entity_updater_okrun cfg api now beh st accs acc2 hs hacc hloop]
  have hcon := loop_contrib cfg accs _ acc2 hloop
  have hcx := hcon (acodeX, acctX) hx
  exact ⟨⟨_, _, _, rfl⟩, hcx.2.1 () hferr, hcx.2.2.1, hcx.2.2.2,
    fun p hp => (hcon p hp).1⟩

/-- C6 witness: account X's meter fetch fails, account Y is healthy — the
failure is logged, X's invoice is still fetched, both accounts are processed
and the cycle returns a summary. -/
theorem C6_witness :
    (sessionOk cfgNoF apiEx 0 behTwo = true ∧
      behTwo.accountsRes = .ok [("X", raErr), ("Y", raEx)] ∧
      (∀ p ∈ [("X", raErr), ("Y", raEx)],
        (fetchAndFilter cfgNoF p.1 p.2.metersRes).isCrash = false) ∧
      ("X", raErr) ∈ [("X", raErr), ("Y", raEx)] ∧
      raErr.metersRes = .error ()) ∧
    ((∃ a m i, (entity_updater cfgNoF apiEx 0 behTwo st0).result = .done a m i) ∧
      "X" ∈ (entity_updater cfgNoF apiEx 0 behTwo st0).log.meterErrors ∧
      "X" ∈ (entity_updater cfgNoF apiEx 0 behTwo st0).log.invoiceStage ∧
      (invoiceSkip cfgNoF.invoices_filter "X" = false →
        "X" ∈ (entity_updater cfgNoF apiEx 0 behTwo st0).log.invoiceFetches) ∧
      (∀ p ∈ [("X", raErr), ("Y", raEx)],
        p.1 ∈ (entity_updater cfgNoF apiEx 0 behTwo st0).log.accountsProcessed)) :=
  ⟨⟨by decide, by decide, by decide, by decide, by decide⟩,
    C6_meter_failure_isolated cfgNoF apiEx 0 behTwo st0 [("X", raErr), ("Y", raEx)]
      "X" raErr (by decide) (by decide) (by decide) (by decide) (by decide)⟩

/-- C7: a cycle returns a failed (`False`) result — processing no account —
exactly when session establishment fails or the account listing fetch fails;
with session and listing healthy, every other provider failure is absorbed
and the cycle returns a summary. -/
theorem C7_failure_characterisation (cfg : Config) (api : ApiState) (now : Nat)
    (beh : Behavior) (st : PState) (hnc : noCrashAll cfg beh) :
    ((entity_updater cfg api now beh st).result.isFailed = true ↔
      (session_establishment_fails cfg api now beh ∨ ∃ u, beh.accountsRes = .error u)) ∧
    ((entity_updater cfg api now beh st).result.isFailed = true →
      (entity_updater cfg api now beh st).log.accountsProcessed = []) ∧
    (¬ session_establishment_fails cfg api now beh →
      ∀ accs, beh.accountsRes = .ok accs →
        ∃ a m i, (entity_updater cfg api now beh st).result = .done a m i) := by
  cases hs : sessionOk cfg api now beh with
  | false =>
    rw [entity_updater_auth cfg api now beh st hs]
    have hsf := (sessionOk_false_iff cfg api now beh).mp hs
    refine ⟨?_, ?_, ?_⟩
    · constructor
      · intro _
        exact Or.inl hsf
      · intro _
        rfl
    · intro _
      rfl
    · intro hnsf
      exact absurd hsf hnsf
  | true =>
    have hnsf : ¬ session_establishment_fails cfg api now beh := by
      intro hsf
      have hfalse := (sessionOk_false_iff cfg api now beh).mpr hsf
      rw [hfalse] at hs
      exact nomatch hs
    cases hacc : beh.accountsRes with
    | error u =>
      rw [entity_updater_list cfg api now beh st u hs hacc]
      refine ⟨?_, ?_, ?_⟩
      · constructor
        · intro _
          exact Or.inr ⟨u, rfl⟩
        · intro _
          rfl
      · intro _
        rfl
      · intro _ accs haccs
        exact nomatch haccs
    | ok accs =>
      unfold noCrashAll at hnc
      rw [hacc] at hnc
      rcases loop_ok_of_no_crash cfg accs
          ⟨st.created_entities.getD [], [], [], [], emptyLog, st.nextEid⟩ hnc with ⟨acc2, hloop⟩
      rw [entity_updater_okrun cfg api now beh st accs acc2 hs hacc hloop]
      refine ⟨?_, ?_, ?_⟩
      · constructor
        · intro hfail
          exact nomatch hfail
        · intro hor
          rcases hor with hsf | ⟨u, hu⟩
          · exact absurd hsf hnsf
          · exact nomatch hu
      · intro hfail
        exact nomatch hfail
      · intro _ accs2 haccs2
        exact ⟨_, _, _, rfl⟩

/-- C7 witness: with a failed login the cycle reports failure having processed
nothing; the characterisation holds at this concrete instance. -/
theorem C7_witness :
    noCrashAll cfgNoF behNoLogin ∧
    (((entity_updater cfgNoF apiOut 0 behNoLogin st0).result.isFailed = true ↔
        (session_establishment_fails cfgNoF apiOut 0 behNoLogin ∨
          ∃ u, behNoLogin.accountsRes = .error u)) ∧
      ((entity_updater cfgNoF apiOut 0 behNoLogin st0).result.isFailed = true →
        (entity_updater cfgNoF apiOut 0 behNoLogin st0).log.accountsProcessed = []) ∧
      (¬ session_establishment_fails cfgNoF apiOut 0 behNoLogin →
        ∀ accs, behNoLogin.accountsRes = .ok accs →
          ∃ a m i, (entity_updater cfgNoF apiOut 0 behNoLogin st0).result = .done a m i)) :=
  ⟨by decide, C7_failure_characterisation cfgNoF apiOut 0 behNoLogin st0 (by decide)⟩
